import Mathlib

/-!
# The ISAAC conformance test `gnulib-tests/test-rand-isaac.c`

A shallow embedding of the test program: its reference table `expected`,
its `main` (seed, one discarded refill, the check loop with `ASSERT (memcmp ...)`,
the repeat loop driven by `strtol (argv[1], NULL, 10)`), and the generator it
drives.  The generator's implementation file and header are not part of the sources
at hand; `main` is therefore embedded over an arbitrary generator, and the ISAAC / ISAAC64
generator itself is given as a separate model.  The comment on lines 31-35 of the test names
the published programs `rand.c` and `isaac64.c` as the origin of `expected`; where the prose
description of the generator leaves a constant or a shift amount open, the model takes it
from these programs.

Words are natural numbers; a word of the generator is kept below `2 ^ ISAAC_BITS`
by explicit reduction.  Arrays are lists.
-/

namespace TestRandIsaac

/-! ## Configuration (`rand-isaac.h`) -/

/-- The two builds of the test, told apart by `#if ISAAC_BITS == 32` on line 38: the 32-bit
family (ISAAC) and the `#else` branch, the 64-bit family (ISAAC64). -/
inductive Family where
  | isaac32
  | isaac64
deriving DecidableEq, Repr

/-- Modelled from the spec: the constant `ISAAC_BITS` of `rand-isaac.h` (not among the
sources): the word width, 32 or 64 bits, fixed at build time. -/
def ISAAC_BITS : Family → Nat
  | .isaac32 => 32
  | .isaac64 => 64

/-- Modelled from the spec: the constant `ISAAC_WORDS_LOG` of `rand-isaac.h` (not among the
sources): the table size is the power of two `N = 256`. -/
def ISAAC_WORDS_LOG : Nat := 8

/-- Modelled from the spec: the constant `ISAAC_WORDS` of `rand-isaac.h` (not among the
sources): `N = 256` words in the state table and in an output block, for both widths. -/
def ISAAC_WORDS : Nat := 2 ^ ISAAC_WORDS_LOG

/-- Modelled from the spec: the size in bytes of the type `isaac_word` of `rand-isaac.h` (not
among the sources), an unsigned integer of 32 or 64 bits. -/
def sizeof_isaac_word (fam : Family) : Nat := ISAAC_BITS fam / 8

/-! ## The reference table `expected` (lines 36-561) -/

/-- First initialiser block of the table under ISAAC_BITS == 32 (expected[0], lines 40-168). -/
def expected32_0 : List Nat :=
  [0xf650e4c8, 0xe448e96d, 0x98db2fb4, 0xf5fad54f,
   0x433f1afb, 0xedec154a, 0xd8370487, 0x46ca4f9a,
   0x5de3743e, 0x88381097, 0xf1d444eb, 0x823cedb6,
   0x6a83e1e0, 0x4a5f6355, 0xc7442433, 0x25890e2e,
   0x7452e319, 0x57161df6, 0x38a824f3, 0x002ed713,
   0x29f55449, 0x51c08d83, 0xd78cb99e, 0xa0cc74f3,
   0x8f651659, 0xcbc8b7c2, 0xf5f71c69, 0x12ad6419,
   0xe5792e1b, 0x860536b8, 0x09b3ce98, 0xd45d6d81,
   0xf3b26129, 0x17e38f85, 0x29cf72ce, 0x349947b0,
   0xc998f9ff, 0xb5e13dae, 0x32ae2a2b, 0xf7cf814c,
   0x8ebfa303, 0xcf22e064, 0x0b923200, 0xeca4d58a,
   0xef53cec4, 0xd0f7b37d, 0x9c411a2a, 0xffdf8a80,
   0xb40e27bc, 0xb4d2f976, 0x44b89b08, 0xf37c71d5,
   0x1a70e7e9, 0x0bdb9c30, 0x60dc5207, 0xb3c3f24b,
   0xd7386806, 0x229749b5, 0x4e232cd0, 0x91dabc65,
   0xa70e1101, 0x8b87437e, 0x5781414f, 0xcdbc62e2,
   0x8107c9ff, 0x69d2e4ae, 0x3b18e752, 0xb143b688,
   0x6f4e0772, 0x95138769, 0x943c3c74, 0xafc17a97,
   0x0fd43963, 0x6a529b0b, 0xd8c58a6a, 0xa8bcc22d,
   0x2db35dfe, 0xa7a2f402, 0x6cb167db, 0x538e1f4e,
   0x7275e277, 0x1d3b8e97, 0xecc5dc91, 0x15e3a5b9,
   0x03696614, 0x30ab93ec, 0xac9fe69d, 0x7bc76811,
   0x60eda8da, 0x28833522, 0xd5295ebc, 0x5adb60e7,
   0xf7e1cdd0, 0x97166d14, 0xb67ec13a, 0x210f3925,
   0x64af0fef, 0x0d028684, 0x3aea3dec, 0xb058bafb,
   0xb8b0ccfc, 0xf2b5cc05, 0xe3a662d9, 0x814bc24c,
   0x2364a1aa, 0x37c0ed05, 0x2b36505c, 0x451e7ec8,
   0x5d2a542f, 0xe43d0fbb, 0x91c8d925, 0x60d4d5f8,
   0x12a0594b, 0x9e8a51da, 0xcd49ebdb, 0x1b0dcdc1,
   0xcd57c7f7, 0xe6344451, 0x7ded386f, 0x2f36fa86,
   0xa6d12101, 0x33bc405d, 0xb388d96c, 0xdb6dbe96,
   0xfe29661c, 0x13edc0cb, 0xcb0eee4a, 0x70cc94ae,
   0xde11ed34, 0x0606cf9f, 0x3a6ce389, 0x23d74f4e,
   0xa37f63ff, 0x917bdec2, 0xd73f72d4, 0x0e7e0e67,
   0x3d77d9a2, 0x13add922, 0x8891b3db, 0x01a9bd70,
   0x56a001e3, 0xd51f093d, 0xcc033ce3, 0x5ad0d3b0,
   0x34105a8c, 0x6a123f57, 0xbd2e5024, 0x7364944b,
   0xe89b1a3b, 0x21835c4d, 0x9f39e2d9, 0xd405ded8,
   0x294d37e5, 0xbccaaeed, 0x35a124b5, 0x6708a2bc,
   0xb00960ba, 0x2a98121a, 0x4d8fae82, 0x0bb3263f,
   0x12595a19, 0x6a107589, 0x0809e494, 0x21c171ec,
   0x884d6825, 0x14c8009b, 0xb0b84e7b, 0x03fb88f4,
   0x28e7cb78, 0x9388b13b, 0xdd2dc1d5, 0x848f520a,
   0x07c28cd1, 0x68a39358, 0x72c9137d, 0x127dd430,
   0xc613f157, 0x8c2f0d55, 0xf7d3f39f, 0x309bfb78,
   0x8406b137, 0x46c0a6f5, 0x3718d597, 0x08607f04,
   0x76904b6d, 0x04db4e13, 0xcd7411a7, 0xb510ce0e,
   0xbfc7f7cc, 0xb83f957a, 0xfdfef62d, 0xc35e4580,
   0x3ff1e524, 0x4112d96c, 0x02c9b944, 0xd5990dfb,
   0xe7e26581, 0x0d9c7e7e, 0x826dfa89, 0x66f1e0ab,
   0x30bcc764, 0xeadebeac, 0xed35e5ee, 0x0c571a7d,
   0xe4f3a26a, 0xf7f58f7b, 0xadf6bc23, 0x5d023e65,
   0x1ed3ff4e, 0xec46b0b6, 0xd2a93b51, 0xe75b41c9,
   0x7e315aeb, 0x61119a5a, 0x53245b79, 0x33f6d7b1,
   0xcae8deba, 0x50fc8194, 0xafa92a6d, 0xc87c8006,
   0x4188bfcd, 0x8bace62e, 0x78ffa568, 0x5597ec0f,
   0xb4415f7d, 0x08294766, 0xad567643, 0x09c36f90,
   0x3dde9f39, 0x4a0a283c, 0x18080c8e, 0x080c79ec,
   0x79ae4c10, 0xcb9e1563, 0x7cdd662f, 0x62d31911,
   0xa4ca0cf1, 0x5cf824cd, 0x3b708f99, 0x1e16614c,
   0xb6b9d766, 0x5de87abb, 0x7229ea81, 0xd5b2d750,
   0x56e6cd21, 0xfe1e42d5, 0x96da2655, 0xc2b9aa36,
   0xb8f6fd4a, 0x6a158d10, 0x01913fd3, 0xaf7d1fb8,
   0x0b5e435f, 0x90c10757, 0x6554abda, 0x7a68710f]

/-- Second initialiser block of the table under ISAAC_BITS == 32 (expected[1], lines 169-298). -/
def expected32_1 : List Nat :=
  [0x82ac484f, 0xd7e1c7be, 0x95c85eaa, 0x94a302f4,
   0x4d3cfbda, 0x786b2908, 0x1010b275, 0x82d53d12,
   0x21e2a51c, 0x3d1e9150, 0xb059261d, 0xd0638e1a,
   0x31860f05, 0x81f2864d, 0xff4cfc35, 0x0451516d,
   0xbd086f26, 0xbc5654c1, 0x65dfa427, 0xa82427f5,
   0x582e3014, 0xb8d2486d, 0xc79a1749, 0x9a1d7745,
   0x8766bb54, 0x1e04a7f7, 0x3d3dff8a, 0xd5ec6bf4,
   0xdbef7d9f, 0x36ec0ea3, 0x1feb2e4f, 0x15cfcc5c,
   0xd8c423fb, 0xd0ef3cc9, 0xeb244925, 0xba5590c8,
   0xa5f48ac4, 0x33c5321c, 0x613b67b2, 0x479c3a22,
   0xe21339cc, 0x10d210aa, 0x931dd7e2, 0xef05ee06,
   0xb82f2703, 0xa385cb2c, 0x5d67133c, 0x877eb7b4,
   0x1e3437f7, 0x5afb43ae, 0x53c078f3, 0x94d90481,
   0x1d964589, 0x08063a85, 0xe1322228, 0x1956b1e5,
   0x31860f13, 0x2e7b022f, 0x21182ca3, 0x96f703ac,
   0x46819e2e, 0x0d28fe52, 0x3724d4dc, 0xa0eabe6b,
   0xc66699fd, 0xc6112fdd, 0x19c1e69c, 0x04d3658a,
   0x4b55dd99, 0x31907d62, 0xf854b522, 0x4d678f26,
   0x22ae0582, 0xeafed133, 0xe4a51d21, 0x84bd6dd6,
   0xc1a51375, 0x3f28ee63, 0xfb737b1a, 0x70a1660e,
   0x8a8dfaa3, 0x1be79937, 0xf7476978, 0x513c1764,
   0x531ac6bf, 0x12c06908, 0x001cdb95, 0x1a4b6a53,
   0xd067fce5, 0x12b2cfb6, 0x9ddb477f, 0x740e0066,
   0x39ddf25a, 0xcc8bfa2d, 0xf1b20eaf, 0x64f2632c,
   0x9783cdee, 0x63bfd4d8, 0x0084cfe5, 0x75f4e9e2,
   0x19b48fd0, 0x6c48ddd8, 0x7a36af93, 0x71865c4c,
   0x9ce0199d, 0x867027d7, 0x2cb7b77f, 0x84ef01da,
   0x72f5972f, 0x040f7074, 0xdf9afa29, 0xc921f94e,
   0x75c08a36, 0x18c1ef9a, 0xd649a428, 0xc5b71937,
   0x8a30738a, 0xd97cd348, 0x858129a6, 0x239e3b0a,
   0xbbb8abc4, 0x80fac4c2, 0xecfcf20b, 0xd9d711f9,
   0xe2a4ef71, 0xb5fe87c0, 0xbe8b06b2, 0xaafef5a7,
   0x9c15db3b, 0x0aeb8165, 0x4389a84a, 0x253b1d7a,
   0x19047c79, 0x7cdc78a2, 0xd20adf03, 0x56f55a71,
   0x3e730fa8, 0xfd8650d8, 0x959e234e, 0xb7546681,
   0xdad1b22a, 0x142a6e85, 0x8ef4bce6, 0x68235b9d,
   0x85a13f85, 0x74096ae7, 0xa949bea2, 0x29322d0d,
   0xd5683858, 0x82846526, 0x403dae08, 0x6dd1943a,
   0xe1279bff, 0x9e7e4f04, 0x1c3a4524, 0x484525e4,
   0x81d4cc5f, 0xe24124c0, 0x037464c0, 0xbf1bd691,
   0x26ceb003, 0x275ead3a, 0xc5bde908, 0x26414ff3,
   0xa30519ad, 0xd7b43abe, 0x2ce5d3d5, 0x88412761,
   0x97ca2070, 0xe5fbb9c7, 0x276df0b4, 0x308f751f,
   0x37a97df6, 0xc9cd808c, 0xfe4cb380, 0x3d469303,
   0xaee19096, 0xc0d5d42a, 0x4e823ad3, 0xf5f9cc3b,
   0x4286619c, 0x9ca45e1c, 0x66c97340, 0x891aec49,
   0x45bae606, 0xc798f047, 0x52649d6c, 0xce86fdfc,
   0x80c6e402, 0xd6ec2f2b, 0x27c82282, 0x1fe26ce0,
   0x92f57ea7, 0xde462f4d, 0x07497cae, 0x5a48755c,
   0x721502dd, 0x6cbe7935, 0x836d8003, 0x9ead7f70,
   0x9ab3a42f, 0x4c8652d6, 0x32e39273, 0xe8fa3860,
   0x1da4f25a, 0x0cd6ef81, 0x02503f7d, 0x8854a0a1,
   0x9a30c4e8, 0x88157153, 0x05efe294, 0x57c4c925,
   0x2887d96f, 0xc1a71e3c, 0xe9f84163, 0x2d0985de,
   0xd21e796c, 0x6fb5ce56, 0x02614abf, 0xc3c7be2c,
   0xb54fed6f, 0xa617a083, 0xc3142d8f, 0x6079e4ce,
   0xceffc147, 0x1d0cb81b, 0xdc153e5f, 0xe36ef5bb,
   0xd531161a, 0x165b1015, 0x7aa114ed, 0x3f7579b3,
   0xf7f395f1, 0xbc6172c7, 0xa86f875e, 0x0e6c51b3,
   0xcdfec2af, 0x73c0e762, 0x824c2009, 0xc5a87748,
   0x94d40125, 0x8aba3ffb, 0xd32be060, 0x8c17eff0,
   0x21e2547e, 0x07cffad9, 0x05340e15, 0xf3310c92,
   0x9d8d1908, 0x86ba527f, 0xf943f672, 0xef73fbf0,
   0x46d95ca5, 0xc54cd95b, 0x9d855e89, 0x4bb5af29]

/-- First initialiser block of the table in the 64-bit branch (expected[0], lines 300-429). -/
def expected64_0 : List Nat :=
  [0x12a8f216af9418c2, 0xd4490ad526f14431,
   0xb49c3b3995091a36, 0x5b45e522e4b1b4ef,
   0xa1e9300cd8520548, 0x49787fef17af9924,
   0x03219a39ee587a30, 0xebe9ea2adf4321c7,
   0x804456af10f5fb53, 0xd74bbe77e6116ac7,
   0x7c0828dd624ec390, 0x14a195640116f336,
   0x2eab8ca63ce802d7, 0xc6e57a78fbd986e0,
   0x58efc10b06a2068d, 0xabeeddb2dde06ff1,
   0x0b090a7560a968e3, 0x2cf9c8ca052f6e9f,
   0x116d0016cb948f09, 0xa59e0bd101731a28,
   0x63767572ae3d6174, 0xab4f6451cc1d45ec,
   0xc2a1e7b5b459aeb5, 0x2472f6207c2d0484,
   0xe699ed85b0dfb40d, 0xd4347f66ec8941c3,
   0xf4d14597e660f855, 0x8b889d624d44885d,
   0x258e5a80c7204c4b, 0xaf0c317d32adaa8a,
   0x9c4cd6257c5a3603, 0xeb3593803173e0ce,
   0x36f60e2ba4fa6800, 0x38b6525c21a42b0e,
   0xf4f5d05c10cab243, 0xcf3f4688801eb9aa,
   0x1ddc0325259b27de, 0xb9571fa04dc089c8,
   0xd7504dfa8816edbb, 0x1fe2cca76517db90,
   0x261e4e4c0a333a9d, 0x219b97e26ffc81bd,
   0x66b4835d9eafea22, 0x4cc317fb9cddd023,
   0x50b704cab602c329, 0xedb454e7badc0805,
   0x9e17e49642a3e4c1, 0x66c1a2a1a60cd889,
   0x7983eed3740847d5, 0x298af231c85bafab,
   0x2680b122baa28d97, 0x734de8181f6ec39a,
   0x53898e4c3910da55, 0x1761f93a44d5aefe,
   0xe4dbf0634473f5d2, 0x4ed0fe7e9dc91335,
   0xd18d8549d140caea, 0x1cfc8bed0d681639,
   0xca1e3785a9e724e5, 0xb67c1fa481680af8,
   0xdfea21ea9e7557e3, 0xd6b6d0ecc617c699,
   0xfa7e393983325753, 0xa09e8c8c35ab96de,
   0x8fe88b57305e2ab6, 0x89039d79d6fc5c5c,
   0x9bfb227ebdf4c5ce, 0x7f7cc39420a3a545,
   0x3f6c6af859d80055, 0xc8763c5b08d1908c,
   0x469356c504ec9f9d, 0x26e6db8ffdf5adfe,
   0x3a938fee32d29981, 0x2c5e9deb57ef4743,
   0x1e99b96e70a9be8b, 0x764dbeae7fa4f3a6,
   0xaac40a2703d9bea0, 0x1a8c1e992b941148,
   0x73aa8a564fb7ac9e, 0x604d51b25fbf70e2,
   0xdd69a0d8ab3b546d, 0x65ca5b96b7552210,
   0x2fd7e4b9e72cd38c, 0x51d2b1ab2ddfb636,
   0x9d1d84fcce371425, 0xa44cfe79ae538bbe,
   0xde68a2355b93cae6, 0x9fc10d0f989993e0,
   0x94ebc8abcfb56dae, 0xd7a023a73260b45c,
   0x72c8834a5957b511, 0x8f8419a348f296bf,
   0x1e152328f3318dea, 0x4838d65f6ef6748f,
   0xd6bf7baee43cac40, 0x13328503df48229f,
   0x7440fb816508c4fe, 0x9d266d6a1cc0542c,
   0x4dda48153c94938a, 0x74c04bf1790c0efe,
   0xe1925c71285279f5, 0x8a8e849eb32781a5,
   0x073973751f12dd5e, 0xa319ce15b0b4db31,
   0x6dd856d94d259236, 0x67378d8eccef96cb,
   0x9fc477de4ed681da, 0xf3b8b6675a6507ff,
   0xc3a9dc228caac9e9, 0xc37b45b3f8d6f2ba,
   0xb559eb1d04e5e932, 0x1b0cab936e65c744,
   0xaf08da9177dda93d, 0xac12fb171817eee7,
   0x1fff7ac80904bf45, 0xa9119b60369ffebd,
   0xbfced1b0048eac50, 0xb67b7896167b4c84,
   0x9b3cdb65f82ca382, 0xdbc27ab5447822bf,
   0x10dcd78e3851a492, 0xb438c2b67f98e5e9,
   0x43954b3252dc25e5, 0xab9090168dd05f34,
   0xce68341f79893389, 0x36833336d068f707,
   0xdcdd7d20903d0c25, 0xda3a361b1c5157b1,
   0x7f9d1a2e1ebe1327, 0x5d0a12f27ad310d1,
   0x3bc36e078f7515d7, 0x4da8979a0041e8a9,
   0x950113646d1d6e03, 0x7b4a38e32537df62,
   0x8a1b083821f40cb4, 0x3d5774a11d31ab39,
   0x7a76956c3eafb413, 0x7f5126dbba5e0ca7,
   0x12153635b2c0cf57, 0x7b3f0195fc6f290f,
   0x5544f7d774b14aef, 0x56c074a581ea17fe,
   0xe7f28ecd2d49eecd, 0xe479ee5b9930578c,
   0x9ff38fed72e9052f, 0x9f65789a6509a440,
   0x0981dcd296a8736d, 0x5873888850659ae7,
   0xc678b6d860284a1c, 0x63e22c147b9c3403,
   0x92fae24291f2b3f1, 0x829626e3892d95d7,
   0xcffe1939438e9b24, 0x79999cdff70902cb,
   0x8547eddfb81ccb94, 0x7b77497b32503b12,
   0x97fcaacbf030bc24, 0x6ced1983376fa72b,
   0x7e75d99d94a70f4d, 0xd2733c4335c6a72f,
   0xdbc0d2b6ab90a559, 0x94628d38d0c20584,
   0x64972d68dee33360, 0xb9c11d5b1e43a07e,
   0x2de0966daf2f8b1c, 0x2e18bc1ad9704a68,
   0xd4dba84729af48ad, 0xb7a0b174cff6f36e,
   0xe94c39a54a98307f, 0xaa70b5b4f89695a2,
   0x3bdbb92c43b17f26, 0xcccb7005c6b9c28d,
   0x18a6a990c8b35ebd, 0xfc7c95d827357afa,
   0x1fca8a92fd719f85, 0x1dd01aafcd53486a,
   0x49353fea39ba63b1, 0xf85b2b4fbcde44b7,
   0xbe7444e39328a0ac, 0x3e2b8bcbf016d66d,
   0x964e915cd5e2b207, 0x1725cabfcb045b00,
   0x7fbf21ec8a1f45ec, 0x11317ba87905e790,
   0x2fe4b17170e59750, 0xe8d9ecbe2cf3d73f,
   0xb57d2e985e1419c7, 0x0572b974f03ce0bb,
   0xa8d7e4dab780a08d, 0x4715ed43e8a45c0a,
   0xc330de426430f69d, 0x23b70edb1955c4bf,
   0x098954d51fff6580, 0x8107fccf064fcf56,
   0x852f54934da55cc9, 0x09c7e552bc76492f,
   0xe9f6760e32cd8021, 0xa3bc941d0a5061cb,
   0xba89142e007503b8, 0xdc842b7e2819e230,
   0xbbe83f4ecc2bdecb, 0xcd454f8f19c5126a,
   0xc62c58f97dd949bf, 0x693501d628297551,
   0xb9ab4ce57f2d34f3, 0x9255abb50d532280,
   0xebfafa33d7254b59, 0xe9f6082b05542e4e,
   0x35dd37d5871448af, 0xb03031a8b4516e84,
   0xb3f256d8aca0b0b9, 0x0fd22063edc29fca,
   0xd9a11fbb3d9808e4, 0x3a9bf55ba91f81ca,
   0xc8c93882f9475f5f, 0x947ae053ee56e63c,
   0xc7d9f16864a76e94, 0x7bd94e1d8e17debc,
   0xd873db391292ed4f, 0x30f5611484119414,
   0x565c31f7de89ea27, 0xd0e4366228b03343,
   0x325928ee6e6f8794, 0x6f423357e7c6a9f9,
   0x99170a5dc3115544, 0x59b97885e2f2ea28,
   0xbc4097b116c524d2, 0x7a13f18bbedc4ff5,
   0x071582401c38434d, 0xb422061193d6f6a7,
   0xb4b81b3fa97511e2, 0x65d34954daf3cebd,
   0xb344c470397bba52, 0xbac7a9a18531294b,
   0xecb53939887e8175, 0x565601c0364e3228,
   0xef1955914b609f93, 0x16f50edf91e513af,
   0x56963b0dca418fc0, 0xd60f6dcedc314222,
   0x364f6ffa464ee52e, 0x6c3b8e3e336139d3,
   0xf943aee7febf21b8, 0x088e049589c432e0,
   0xd49503536abca345, 0x3a6c27934e31188a,
   0x957baf61700cff4e, 0x37624ae5a48fa6e9,
   0x501f65edb3034d07, 0x907f30421d78c5de,
   0x1a804aadb9cfa741, 0x0ce2a38c344a6eed,
   0xd363eff5f0977996, 0x2cd16e2abd791e33,
   0x58627e1a149bba21, 0x7f9b6af1ebf78baf]

/-- Second initialiser block of the table in the 64-bit branch (expected[1], lines 430-559). -/
def expected64_1 : List Nat :=
  [0xd20d8c88c8ffe65f, 0x917f1dd5f8886c61,
   0x56986e2ef3ed091b, 0x5fa7867caf35e149,
   0x81a1549fd6573da5, 0x96fbf83a12884624,
   0xe728e8c83c334074, 0xf1bcc3d275afe51a,
   0x71f1ce2490d20b07, 0xe6c42178c4bbb92e,
   0x0a9c32d5eae45305, 0x0c335248857fa9e7,
   0x142de49fff7a7c3d, 0x64a53dc924fe7ac9,
   0x9f6a419d382595f4, 0x150f361dab9dec26,
   0xc61bb3a141e50e8c, 0x2785338347f2ba08,
   0x7ca9723fbb2e8988, 0xce2f8642ca0712dc,
   0x59300222b4561e00, 0xc2b5a03f71471a6f,
   0xd5f9e858292504d5, 0x65fa4f227a2b6d79,
   0x93cbe0b699c2585d, 0x1d95b0a5fcf90bc6,
   0x17efee45b0dee640, 0x9e4c1269baa4bf37,
   0xd79476a84ee20d06, 0x0a56a5f0bfe39272,
   0x7eba726d8c94094b, 0x5e5637885f29bc2b,
   0xd586bd01c5c217f6, 0x233003b5a6cfe6ad,
   0x24c0e332b70019b0, 0x9da058c67844f20c,
   0xe4d9429322cd065a, 0x1fab64ea29a2ddf7,
   0x8af38731c02ba980, 0x7dc7785b8efdfc80,
   0x486289ddcc3d6780, 0x222bbfae61725606,
   0x2bc60a63a6f3b3f2, 0x177e00f9fc32f791,
   0x522e23f3925e319e, 0x9c2ed44081ce5fbd,
   0x964781ce734b3c84, 0xf05d129681949a4c,
   0x046e3ecaaf453ce9, 0x962aceefa82e1c84,
   0xf5b4b0b0d2deeeb4, 0x1af3dbe25d8f45da,
   0xf9f4892ed96bd438, 0xc4c118bfe78feaae,
   0x07a69afdcc42261a, 0xf8549e1a3aa5e00d,
   0x2102ae466ebb1148, 0xe87fbb46217a360e,
   0x310cb380db6f7503, 0xb5fdfc5d3132c498,
   0xdaf8e9829fe96b5f, 0xcac09afbddd2cdb4,
   0xb862225b055b6960, 0x55b6344cf97aafae,
   0xff577222c14f0a3a, 0x4e4b705b92903ba4,
   0x730499af921549ff, 0x13ae978d09fe5557,
   0xd9e92aa246bf719e, 0x7a4c10ec2158c4a6,
   0x49cad48cebf4a71e, 0xcf05daf5ac8d77b0,
   0xabbdcdd7ed5c0860, 0x9853eab63b5e0b35,
   0x352787baa0d7c22f, 0xc7f6aa2de59aea61,
   0x03727073c2e134b1, 0x5a0f544dd2b1fb18,
   0x74f85198b05a2e7d, 0x963ef2c96b33be31,
   0x4659d2b743848a2c, 0x19ebb029435dcb0f,
   0x4e9d2827355fc492, 0xccec0a73b49c9921,
   0x46c9feb55d120902, 0x8d2636b81555a786,
   0x30c05b1ba332f41c, 0xf6f7fd1431714200,
   0x1a4ff12616eefc89, 0x990a98fd5071d263,
   0x84547ddc3e203c94, 0x07a3aec79624c7da,
   0x8a328a1cedfe552c, 0xd1e649de1e7f268b,
   0x2d8d5432157064c8, 0x4ae7d6a36eb5dbcb,
   0x57e3306d881edb4f, 0x0a804d18b7097475,
   0xe74733427b72f0c1, 0x24b33c9d7ed25117,
   0xe805a1e290cf2456, 0x3b544ebe544c19f9,
   0x3e666e6f69ae2c15, 0xfb152fe3ff26da89,
   0xb49b52e587a1ee60, 0xac042e70f8b383f2,
   0x89c350c893ae7dc1, 0xb592bf39b0364963,
   0x190e714fada5156e, 0xec8177f83f900978,
   0x91b534f885818a06, 0x81536d601170fc20,
   0xd4c718bc4ae8ae5f, 0x9eedeca8e272b933,
   0x10e8b35af3eeab37, 0x0e09b88e1914f7af,
   0x3fa9ddfb67e2f199, 0xb10bb459132d0a26,
   0x2c046f22062dc67d, 0x5e90277e7cb39e2d,
   0xd6b04d3b7651dd7e, 0xe34a1d250e7a8d6b,
   0x53c065c6c8e63528, 0x1bdea12e35f6a8c9,
   0x21874b8b4d2dbc4f, 0x3a88a0fbbcb05c63,
   0x43ed7f5a0fae657d, 0x230e343dfba08d33,
   0xb5b4071dbfc73a66, 0x8f9887e6078735a1,
   0x08de8a1c7797da9b, 0xfcb6be43a9f2fe9b,
   0x049a7f41061a9e60, 0x9f91508bffcfc14a,
   0xe3273522064480ca, 0xcd04f3ff001a4778,
   0x6bfa9aae5ec05779, 0x371f77e76bb8417e,
   0x3550c2321fd6109c, 0xfb4a3d794a9a80d2,
   0xf43c732873f24c13, 0xaa9119ff184cccf4,
   0xb69e38a8965c6b65, 0x1f2b1d1f15f6dc9c,
   0x67fef95d92607890, 0x31865ced6120f37d,
   0x3a6853c7e70757a7, 0x32ab0edb696703d3,
   0xee97f453f06791ed, 0x6dc93d9526a50e68,
   0x78edefd694af1eed, 0x9c1169fa2777b874,
   0x50065e535a213cf6, 0xde0c89a556b9ae70,
   0xd1e0ccd25bb9c169, 0x6b17b224bad6bf27,
   0x6b02e63195ad0cf8, 0x455a4b4cfe30e3f5,
   0x9338e69c052b8e7b, 0x5092ef950a16da0b,
   0x7c45d833aff07862, 0xa5b1cfdba0ab4067,
   0x6ad047c430a12104, 0x6c47bec883a7de39,
   0x944f6de09134dfb6, 0x9aeba33ac6ecc6b0,
   0x52e762596bf68235, 0x22af003ab672e811,
   0xb5635c95ff7296e2, 0xed2df21216235097,
   0x4a29c6465a314cd1, 0xd83cc2687a19255f,
   0x506c11b9d90e8b1d, 0x57277707199b8175,
   0xcaf21ecd4377b28c, 0xc0c0f5a60ef4cdcf,
   0x93b633abfa3469f8, 0xe846963877671a17,
   0x59ac2c7873f910a3, 0x660d3257380841ee,
   0xd813f2fab7f5c5ca, 0x4112cf68649a260e,
   0x443f64ec5a371195, 0xb0774d261cc609db,
   0x720bf5f26f4d2eaa, 0x1c2559e30f0946be,
   0xe328e230e3e2b3fb, 0x087e79e5a57d1d13,
   0x08dd9bdfd96b9f63, 0x64d0e29eea8838b3,
   0xddf957bc36d8b9ca, 0x6ffe73e81b637fb3,
   0x1a4e4822eb4d7a59, 0x5d94337fbfaf7f5b,
   0xd30c088ba61ea5ef, 0x9d765e419fb69f6d,
   0x9e21f4f903b33fd9, 0xb4d8f77bc3e56167,
   0x733ea705fae4fa77, 0xa4ec0132764ca04b,
   0x7976033a39f7d952, 0x106f72fe81e2c590,
   0x8c90fd9b083f4558, 0xfd080d236da814ba,
   0x7b64978555326f9f, 0x60e8ed72c0dff5d1,
   0xb063e962e045f54d, 0x959f587d507a8359,
   0x758f450c88572e0b, 0x1b6baca2ae4e125b,
   0x61cf4f94c97df93d, 0x2738259634305c14,
   0xd39bb9c3a48db6cf, 0x8215e577001332c8,
   0xa1082c0466df6c0a, 0xef02cdd06ffdb432,
   0xfc87614baf287e07, 0x240ab57a8b888b20,
   0xbf8d5108e27e0d48, 0x61bdd1307c66e300,
   0xb925a6cd0421aff3, 0x3e003e616a6591e9,
   0x94c3251f06f90cf3, 0xbf84470805e69b5f,
   0x98f076a4f7a2322e, 0x70cb6af7c2d5bcf0,
   0xb64be8d8b25396c1, 0xa9aa4d20db084e9b,
   0x2e6d02c36017f67f, 0xefed53d75fd64e6b,
   0xd9f1f30ccd97fb09, 0xa2ebee47e2fbfce1,
   0xb8d91274b9e9d4fb, 0x1db956e450275779,
   0x4fc8e9560f91b123, 0x63573ff03e224774,
   0x0647dfedcd894a29, 0x7884d9bc6cb569d8,
   0x7fba195410e5ca30, 0x106c09b972d2e822,
   0x241260ed4ad1e87d, 0x64c8e531bff53b55,
   0xca672b91e9e4fa16, 0x3871700761b3f743,
   0xf95cffa23af5f6f4, 0x8d14dedb30be846e,
   0x3b097adaf088f94e, 0x21e0bd5026c619bf,
   0x1bda0492e7e4586e, 0xd23c8e176d113600,
   0x252f59cf0d9f04bb, 0xb3598080ce64a656,
   0x993e1de72d36d310, 0xa2853b80f17f58ee,
   0x1877b51e57a764d5, 0x001f837cc7350524]

/-- The table `expected[2][ISAAC_WORDS]`: the preprocessor keeps one pair of blocks. -/
def expected : Family → List (List Nat)
  | .isaac32 => [expected32_0, expected32_1]
  | .isaac64 => [expected64_0, expected64_1]

/-! ## The generator -/

/-- Modelled from the spec: the type `struct isaac_state` of `rand-isaac.h` (not among the
sources): the table of `N` words and the scalar words `a`, `b`, `c`. -/
structure isaac_state where
  m : List Nat
  a : Nat
  b : Nat
  c : Nat
deriving DecidableEq, Repr

/-- Modelled from the spec: word arithmetic of the generator core (not among the sources);
a word holds `ISAAC_BITS` bits, so every sum and left shift is reduced modulo `2 ^ ISAAC_BITS`. -/
def just (fam : Family) (a : Nat) : Nat := a % 2 ^ ISAAC_BITS fam

/-- Modelled from the spec: the value-indexed lookup of the generator core (not among the
sources): the table entry selected by the bits of `x` just above the byte offset of a word,
masked to the table size. -/
def ind (fam : Family) (m : List Nat) (x : Nat) : Nat :=
  m.getD ((x / sizeof_isaac_word fam) % ISAAC_WORDS) 0

/-- Modelled from the spec: the four shift patterns of Refill (generator core, not among the
sources), selected by `i mod 4`: shift left, right, left, right, each xored with `a`; the two
word widths have their own shift amounts, and the 64-bit family complements the first. -/
def rngmix : Family → Nat → Nat → Nat
  | .isaac32, 0, a => just .isaac32 (a ^^^ (a <<< 13))
  | .isaac32, 1, a => just .isaac32 (a ^^^ (a >>> 6))
  | .isaac32, 2, a => just .isaac32 (a ^^^ (a <<< 2))
  | .isaac32, _, a => just .isaac32 (a ^^^ (a >>> 16))
  | .isaac64, 0, a => (2 ^ 64 - 1) - just .isaac64 (a ^^^ (a <<< 21))
  | .isaac64, 1, a => just .isaac64 (a ^^^ (a >>> 5))
  | .isaac64, 2, a => just .isaac64 (a ^^^ (a <<< 12))
  | .isaac64, _, a => just .isaac64 (a ^^^ (a >>> 33))

/-- The variables of one Refill sweep: the table, the accumulators and the output buffer. -/
structure Sweep where
  m : List Nat
  a : Nat
  b : Nat
  r : List Nat
deriving DecidableEq, Repr

/-- Modelled from the spec: step `i` of the Refill sweep (generator core, not among the sources):
the new `a` from the shift pattern and the table entry half a table away, the new `table[i]`
from a first indirect lookup plus `a` and `b`, and `b` and the `i`-th output word from a second
lookup, indexed by the new `table[i]`, plus the old `table[i]`. -/
def isaac_step (fam : Family) (w : Sweep) (i : Nat) : Sweep :=
  let a := just fam (rngmix fam (i % 4) w.a + w.m.getD ((i + ISAAC_WORDS / 2) % ISAAC_WORDS) 0)
  let x := w.m.getD i 0
  let y := just fam (ind fam w.m x + a + w.b)
  let m := w.m.set i y
  let b := just fam (ind fam m (y >>> ISAAC_WORDS_LOG) + x)
  { m := m, a := a, b := b, r := w.r.set i b }

/-- Modelled from the spec: Refill (`isaac_refill` of the generator core, not among the sources):
increments `c`, sweeps the table once in index order, and leaves the block in `result`. -/
def isaac_refill (fam : Family) (s : isaac_state) (result : List Nat) : isaac_state × List Nat :=
  let c := just fam (s.c + 1)
  let w := (List.range ISAAC_WORDS).foldl (isaac_step fam)
    { m := s.m, a := s.a, b := just fam (s.b + c), r := result }
  ({ m := w.m, a := w.a, b := w.b, c := c }, w.r)

/-- The eight working registers of Seed. -/
structure Regs where
  a : Nat
  b : Nat
  c : Nat
  d : Nat
  e : Nat
  f : Nat
  g : Nat
  h : Nat
deriving DecidableEq, Repr

/-- Modelled from the spec: the register scrambling step of Seed (generator core, not among the
sources), a fixed chain of shift/xor/add operations per word width. -/
def mix : Family → Regs → Regs
  | .isaac32, ⟨a, b, c, d, e, f, g, h⟩ =>
    let j := just .isaac32
    let a := j (a ^^^ (b <<< 11)); let d := j (d + a); let b := j (b + c)
    let b := j (b ^^^ (c >>> 2));  let e := j (e + b); let c := j (c + d)
    let c := j (c ^^^ (d <<< 8));  let f := j (f + c); let d := j (d + e)
    let d := j (d ^^^ (e >>> 16)); let g := j (g + d); let e := j (e + f)
    let e := j (e ^^^ (f <<< 10)); let h := j (h + e); let f := j (f + g)
    let f := j (f ^^^ (g >>> 4));  let a := j (a + f); let g := j (g + h)
    let g := j (g ^^^ (h <<< 8));  let b := j (b + g); let h := j (h + a)
    let h := j (h ^^^ (a >>> 9));  let c := j (c + h); let a := j (a + b)
    ⟨a, b, c, d, e, f, g, h⟩
  | .isaac64, ⟨a, b, c, d, e, f, g, h⟩ =>
    let j := just .isaac64
    let W := 2 ^ 64
    let a := j (a + (W - j e)); let f := j (f ^^^ (h >>> 9));  let h := j (h + a)
    let b := j (b + (W - j f)); let g := j (g ^^^ (a <<< 9));  let a := j (a + b)
    let c := j (c + (W - j g)); let h := j (h ^^^ (b >>> 23)); let b := j (b + c)
    let d := j (d + (W - j h)); let a := j (a ^^^ (c <<< 15)); let c := j (c + d)
    let e := j (e + (W - j a)); let b := j (b ^^^ (d >>> 14)); let d := j (d + e)
    let f := j (f + (W - j b)); let c := j (c ^^^ (e <<< 20)); let e := j (e + f)
    let g := j (g + (W - j c)); let d := j (d ^^^ (f >>> 17)); let f := j (f + g)
    let h := j (h + (W - j d)); let e := j (e ^^^ (g <<< 14)); let g := j (g + h)
    ⟨a, b, c, d, e, f, g, h⟩

/-- Modelled from the spec: the golden-ratio bit pattern of each word width from which the
working registers of Seed are derived (generator core, not among the sources). -/
def golden : Family → Nat
  | .isaac32 => 0x9e3779b9
  | .isaac64 => 0x9e3779b97f4a7c13

/-- Modelled from the spec: one table pass of Seed (generator core, not among the sources):
for each group of eight entries, add the entries to the registers, scramble, and overwrite
the group with the registers. -/
def isaac_mix_pass (fam : Family) (p : Regs × List Nat) (k : Nat) : Regs × List Nat :=
  let i := 8 * k
  let g := p.1
  let m := p.2
  let j := just fam
  let g := mix fam
    ⟨j (g.a + m.getD i 0), j (g.b + m.getD (i + 1) 0), j (g.c + m.getD (i + 2) 0),
     j (g.d + m.getD (i + 3) 0), j (g.e + m.getD (i + 4) 0), j (g.f + m.getD (i + 5) 0),
     j (g.g + m.getD (i + 6) 0), j (g.h + m.getD (i + 7) 0)⟩
  (g, (((((((m.set i g.a).set (i + 1) g.b).set (i + 2) g.c).set (i + 3) g.d).set (i + 4) g.e).set
    (i + 5) g.f).set (i + 6) g.g).set (i + 7) g.h)

/-- Modelled from the spec: Seed (`isaac_seed` of the generator core, not among the sources):
four scrambling rounds of the golden-ratio registers, then two passes over the table, the
first over the seed words and the second over the provisional table; then `a = b = c = 0`. -/
def isaac_seed (fam : Family) (s : isaac_state) : isaac_state :=
  let g0 : Regs := ⟨golden fam, golden fam, golden fam, golden fam,
    golden fam, golden fam, golden fam, golden fam⟩
  let g := mix fam (mix fam (mix fam (mix fam g0)))
  let p1 := (List.range (ISAAC_WORDS / 8)).foldl (isaac_mix_pass fam) (g, s.m)
  let p2 := (List.range (ISAAC_WORDS / 8)).foldl (isaac_mix_pass fam) p1
  { m := p2.2, a := 0, b := 0, c := 0 }

/-- The zero-initialised object `static struct isaac_state s` of `main` (line 572). -/
def zero_state : isaac_state := { m := List.replicate ISAAC_WORDS 0, a := 0, b := 0, c := 0 }

/-- The two generator operations `main` calls, on a state type `σ`: `isaac_seed (&s)` and
`isaac_refill (&s, r)`, the latter giving the new state and the new content of `r`. -/
structure Generator (σ : Type) where
  isaac_seed : σ → σ
  isaac_refill : σ → List Nat → σ × List Nat

/-- The modelled ISAAC / ISAAC64 generator as the generator of the test. -/
def isaacGen (fam : Family) : Generator isaac_state :=
  { isaac_seed := isaac_seed fam, isaac_refill := isaac_refill fam }

/-- The state and buffer after `n` consecutive calls `isaac_refill (&s, r)`. -/
def refillN {σ : Type} (g : Generator σ) : Nat → σ × List Nat → σ × List Nat
  | 0, p => p
  | n + 1, p => g.isaac_refill (refillN g n p).1 (refillN g n p).2

/-! ## The harness `main` (lines 563-590) -/

/-- Steps of a run that the properties of `main` speak about, recorded in program order. -/
inductive Event where
  /-- A call `isaac_seed (&s)`. -/
  | seed
  /-- A call `isaac_refill (&s, r)`. -/
  | refill
  /-- An evaluation of `memcmp (r, expected[i], sizeof r)`, with the content of `r`. -/
  | compare (i : Nat) (r : List Nat)
  /-- An execution of the body of the repeat loop, with the value of `iterations`. -/
  | body (iterations : Int)
deriving DecidableEq, Repr

/-- The variables `s` and `r` of `main`, and the record of the steps made so far. -/
structure Harness (σ : Type) where
  s : σ
  r : List Nat
  log : List Event

/-- The statement `isaac_seed (&s);`. -/
def callSeed {σ : Type} (g : Generator σ) (h : Harness σ) : Harness σ :=
  { s := g.isaac_seed h.s, r := h.r, log := h.log ++ [Event.seed] }

/-- The statement `isaac_refill (&s, r);`. -/
def callRefill {σ : Type} (g : Generator σ) (h : Harness σ) : Harness σ :=
  { s := (g.isaac_refill h.s h.r).1, r := (g.isaac_refill h.s h.r).2,
    log := h.log ++ [Event.refill] }

/-- The bytes of one `isaac_word` in memory (least significant byte first). -/
def wordBytes (fam : Family) (w : Nat) : List Nat :=
  (List.range (sizeof_isaac_word fam)).map fun k => w / 256 ^ k % 256

/-- The bytes of an array of `isaac_word`. -/
def objectBytes (fam : Family) : List Nat → List Nat
  | [] => []
  | w :: ws => wordBytes fam w ++ objectBytes fam ws

/-- The library function `memcmp (p, q, n)`: the difference of the first pair of differing bytes among
the first `n`, zero when there is none. -/
def memcmp : List Nat → List Nat → Nat → Int
  | x :: xs, y :: ys, n + 1 => if x = y then memcmp xs ys n else (x : Int) - (y : Int)
  | _, _, _ => 0

/-- The value of `sizeof r`, for `isaac_word r[ISAAC_WORDS]`. -/
def sizeof_r (fam : Family) : Nat := ISAAC_WORDS * sizeof_isaac_word fam

/-- The condition `memcmp (r, expected[i], sizeof r) == 0` of the assertion on line 579. -/
def blockMatches (fam : Family) (r : List Nat) (i : Nat) : Bool :=
  memcmp (objectBytes fam r) (objectBytes fam ((expected fam).getD i [])) (sizeof_r fam) == 0

/-- How a run of `main` ends: `return` with a status, or `abort ()` from a failed `ASSERT`
on the given source line. -/
inductive Exit where
  | returned (status : Int)
  | aborted (line : Nat)
deriving DecidableEq, Repr

/-- Modelled from the spec: the macro `ASSERT` of `macros.h` (not among the sources), an
assertion-style abort: after `ASSERT (expr)` on source line `line` the run continues (`none`)
when `expr` is true, and ends at once by `abort ()` when it is false. -/
def ASSERT (line : Nat) (expr : Bool) : Option Exit :=
  if expr then none else some (Exit.aborted line)

/-- Result of the check loop: all blocks passed, or the run ended in the loop. -/
inductive Checked (σ : Type) where
  | passed (h : Harness σ)
  | failed (h : Harness σ) (e : Exit)

/-- The check loop (lines 576-580), entered with the value `i` of the loop variable:
`for (...; i < sizeof expected / sizeof expected[0]; i++)
   { isaac_refill (&s, r); ASSERT (memcmp (r, expected[i], sizeof r) == 0); }`. -/
def checkLoop {σ : Type} (fam : Family) (g : Generator σ) (i : Nat) (h : Harness σ) : Checked σ :=
  if i < (expected fam).length then
    let h1 := callRefill g h
    let h2 : Harness σ := { s := h1.s, r := h1.r, log := h1.log ++ [Event.compare i h1.r] }
    match ASSERT 579 (blockMatches fam h2.r i) with
    | none => checkLoop fam g (i + 1) h2
    | some e => Checked.failed h2 e
  else Checked.passed h
termination_by (expected fam).length - i
decreasing_by omega

/-- Conversion of the `long` result of `strtol` to `int` (two's complement wrap to 32 bits). -/
def toInt (v : Int) : Int := (v + 2 ^ 31) % 2 ^ 32 - 2 ^ 31

/-- The initialiser `argc <= 1 ? 0 : strtol (argv[1], NULL, 10)` of `iterations`;
`parsed` is the value `strtol` returns for `argv[1]`. -/
def startIterations (argc parsed : Int) : Int := if argc ≤ 1 then 0 else toInt parsed

/-- The repeat loop (lines 584-588), entered with the value of `iterations`:
`for (...; iterations != 0; iterations += (iterations < 0 ? 1 : -1))
   if (0 <= iterations) isaac_refill (&s, r);`. -/
def repeatLoop {σ : Type} (g : Generator σ) (iterations : Int) (h : Harness σ) : Harness σ :=
  if iterations ≠ 0 then
    let h1 : Harness σ := { s := h.s, r := h.r, log := h.log ++ [Event.body iterations] }
    let h2 := if 0 ≤ iterations then callRefill g h1 else h1
    repeatLoop g (iterations + (if iterations < 0 then 1 else -1)) h2
  else h
termination_by iterations.natAbs
decreasing_by split <;> omega

/-- A finished run of `main`: the final variables and record, and how the run ended. -/
structure Run (σ : Type) where
  h : Harness σ
  exit : Exit

/-- The function `main`.  `s0` is the initial content of the static object `s`, `r0` the
indeterminate initial content of the array `r`, `parsed` the value of `strtol (argv[1], NULL, 10)`. -/
def main {σ : Type} (fam : Family) (g : Generator σ) (s0 : σ) (r0 : List Nat)
    (argc parsed : Int) : Run σ :=
  let h := callRefill g (callSeed g { s := s0, r := r0, log := [] })
  match checkLoop fam g 0 h with
  | Checked.failed h1 e => { h := h1, exit := e }
  | Checked.passed h1 =>
    { h := repeatLoop g (startIterations argc parsed) h1, exit := Exit.returned 0 }

/-! ## Observations on a run -/

/-- Number of `isaac_refill` calls in a record. -/
def refillCalls (log : List Event) : Nat := log.count Event.refill

/-- Whether an event is an execution of the body of the repeat loop. -/
def Event.isBody : Event → Bool
  | Event.body _ => true
  | _ => false

/-- Number of executions of the body of the repeat loop in a record. -/
def bodyRuns (log : List Event) : Nat := log.countP Event.isBody

/-- An array of `ISAAC_WORDS` values of the type `isaac_word`. -/
def IsBlock (fam : Family) (r : List Nat) : Prop :=
  r.length = ISAAC_WORDS ∧ ∀ x ∈ r, x < 2 ^ ISAAC_BITS fam

/-- A generator whose `isaac_refill` leaves an array of `isaac_word` in the buffer. -/
def WellTyped {σ : Type} (fam : Family) (g : Generator σ) : Prop :=
  ∀ s r, IsBlock fam r → IsBlock fam (g.isaac_refill s r).2

/-- The record of a repeat loop entered with `iterations = -k`: `k` idle executions of the body. -/
def idleEvents (k : Nat) : List Event :=
  (List.range k).map fun (j : Nat) => Event.body (-(k : Int) + (j : Int))

/-- The record of a repeat loop entered with `iterations = k`: `k` executions of the body,
each followed by its `isaac_refill` call. -/
def liveEvents : Nat → List Event
  | 0 => []
  | k + 1 => Event.body ((k : Int) + 1) :: Event.refill :: liveEvents k

/-- The state and buffer of `main` after `isaac_seed (&s)` and `n` calls `isaac_refill (&s, r)`. -/
def afterRefills {σ : Type} (g : Generator σ) (s0 : σ) (r0 : List Nat) (n : Nat) : σ × List Nat :=
  refillN g n (g.isaac_seed s0, r0)

/-- The record of `main` up to and including the first comparison. -/
def firstCheck {σ : Type} (g : Generator σ) (s0 : σ) (r0 : List Nat) : List Event :=
  [Event.seed, Event.refill, Event.refill, Event.compare 0 (afterRefills g s0 r0 2).2]

/-- The record of `main` from after the first comparison up to and including the second. -/
def secondCheck {σ : Type} (g : Generator σ) (s0 : σ) (r0 : List Nat) : List Event :=
  [Event.refill, Event.compare 1 (afterRefills g s0 r0 3).2]

/-- The record of the repeat loop entered with `iterations = n`. -/
def loopEvents (n : Int) : List Event :=
  if 0 ≤ n then liveEvents n.toNat else idleEvents n.natAbs

/-! ## Evaluation of the generator on a packed table

The table and the output buffer as one number each (word `i` is digit `i` in base
`2 ^ ISAAC_BITS`), with every component of the state evaluated after each step. -/

/-- The base of the packed representation: one digit per word. -/
def wordBase (fam : Family) : Nat := 2 ^ ISAAC_BITS fam

/-- A list of words as one number, word `i` being digit `i`. -/
def pack (fam : Family) : List Nat → Nat
  | [] => 0
  | x :: xs => x + wordBase fam * pack fam xs

/-- Digit `i` of a packed list. -/
def getP (fam : Family) (M i : Nat) : Nat := M / wordBase fam ^ i % wordBase fam

/-- Replace digit `i` of a packed list by `y`. -/
def setP (fam : Family) (M i y : Nat) : Nat :=
  M - getP fam M i * wordBase fam ^ i + y * wordBase fam ^ i

/-- The first `n` digits of a packed list. -/
def unpack (fam : Family) (n M : Nat) : List Nat := (List.range n).map (getP fam M)

/-- Evaluate `n` first, then continue with its value. -/
def force {α : Type} (n : Nat) (k : Nat → α) : α :=
  match n + 1 with
  | 0 => k n
  | v + 1 => k v

/-- The sweep variables with packed table and buffer. -/
structure PSweep where
  m : Nat
  a : Nat
  b : Nat
  r : Nat

/-- Step `i` of the sweep on the packed representation. -/
def stepP (fam : Family) (w : PSweep) (i : Nat) : PSweep :=
  let a := just fam (rngmix fam (i % 4) w.a + getP fam w.m ((i + ISAAC_WORDS / 2) % ISAAC_WORDS))
  let x := getP fam w.m i
  let y := just fam (getP fam w.m ((x / sizeof_isaac_word fam) % ISAAC_WORDS) + a + w.b)
  let m := setP fam w.m i y
  let b := just fam (getP fam m (((y >>> ISAAC_WORDS_LOG) / sizeof_isaac_word fam) % ISAAC_WORDS) + x)
  { m := m, a := a, b := b, r := setP fam w.r i b }

/-- The sweep over the indices `is`, the state evaluated after each step. -/
def sweepP {α : Type} (fam : Family) : List Nat → PSweep → (PSweep → α) → α
  | [], w, k => k w
  | i :: is, w, k =>
    force (stepP fam w i).m fun m => force (stepP fam w i).a fun a =>
    force (stepP fam w i).b fun b => force (stepP fam w i).r fun r =>
    sweepP fam is ⟨m, a, b, r⟩ k

/-- Refill on the packed representation: state `(m, a, b, c)` and buffer `r`. -/
def refillP {α : Type} (fam : Family) (m a b c r : Nat) (k : Nat → Nat → Nat → Nat → Nat → α) : α :=
  force (just fam (c + 1)) fun c1 =>
  sweepP fam (List.range ISAAC_WORDS) ⟨m, a, just fam (b + c1), r⟩ fun w => k w.m w.a w.b c1 w.r

/-- One group of a Seed pass on the packed table. -/
def mix_passP (fam : Family) (p : Regs × Nat) (k : Nat) : Regs × Nat :=
  let i := 8 * k
  let g := p.1
  let m := p.2
  let j := just fam
  let g := mix fam
    ⟨j (g.a + getP fam m i), j (g.b + getP fam m (i + 1)), j (g.c + getP fam m (i + 2)),
     j (g.d + getP fam m (i + 3)), j (g.e + getP fam m (i + 4)), j (g.f + getP fam m (i + 5)),
     j (g.g + getP fam m (i + 6)), j (g.h + getP fam m (i + 7))⟩
  (g, setP fam (setP fam (setP fam (setP fam (setP fam (setP fam (setP fam (setP fam m i g.a)
    (i + 1) g.b) (i + 2) g.c) (i + 3) g.d) (i + 4) g.e) (i + 5) g.f) (i + 6) g.g) (i + 7) g.h)

/-- A Seed pass over the groups `ks`, registers and table evaluated after each group. -/
def passP {α : Type} (fam : Family) : List Nat → Regs × Nat → (Regs × Nat → α) → α
  | [], p, k => k p
  | i :: is, p, k =>
    force (mix_passP fam p i).1.a fun a => force (mix_passP fam p i).1.b fun b =>
    force (mix_passP fam p i).1.c fun c => force (mix_passP fam p i).1.d fun d =>
    force (mix_passP fam p i).1.e fun e => force (mix_passP fam p i).1.f fun f =>
    force (mix_passP fam p i).1.g fun g => force (mix_passP fam p i).1.h fun h =>
    force (mix_passP fam p i).2 fun m =>
    passP fam is (⟨a, b, c, d, e, f, g, h⟩, m) k

/-- Seed on the packed table. -/
def seedP {α : Type} (fam : Family) (m : Nat) (k : Nat → α) : α :=
  let g0 : Regs := ⟨golden fam, golden fam, golden fam, golden fam,
    golden fam, golden fam, golden fam, golden fam⟩
  passP fam (List.range (ISAAC_WORDS / 8)) (mix fam (mix fam (mix fam (mix fam g0))), m) fun p1 =>
  passP fam (List.range (ISAAC_WORDS / 8)) p1 fun p2 => k p2.2

/-- The blocks of the second and third Refill after Seed of the zero state, computed on the
packed representation. -/
def blocksP (fam : Family) : List Nat × List Nat :=
  seedP fam 0 fun m0 =>
  refillP fam m0 0 0 0 0 fun m1 a1 b1 c1 r1 =>
  refillP fam m1 a1 b1 c1 r1 fun m2 a2 b2 c2 r2 =>
  refillP fam m2 a2 b2 c2 r2 fun _ _ _ _ r3 =>
  (unpack fam ISAAC_WORDS r2, unpack fam ISAAC_WORDS r3)

/-- The packed form of the sweep variables. -/
def packSweep (fam : Family) (w : Sweep) : PSweep :=
  { m := pack fam w.m, a := w.a, b := w.b, r := pack fam w.r }

/-- The sweep variables hold arrays of `ISAAC_WORDS` words. -/
def SweepOK (fam : Family) (w : Sweep) : Prop := IsBlock fam w.m ∧ IsBlock fam w.r

/-! ## Further observations -/

/-- The least value of the type `int` (32 bits). -/
def INT_MIN : Int := -2 ^ 31

/-- The greatest value of the type `int` (32 bits). -/
def INT_MAX : Int := 2 ^ 31 - 1

/-- The values of `iterations` at the executions of the body of the repeat loop, in order. -/
def bodyValues : List Event → List Int
  | [] => []
  | Event.body v :: l => v :: bodyValues l
  | Event.seed :: l => bodyValues l
  | Event.refill :: l => bodyValues l
  | Event.compare _ _ :: l => bodyValues l

/-- Spec wording of the comparison: exact equality of the produced block and the reference
block over all `N` words. -/
def spec_wordsEqual (r e : List Nat) : Prop :=
  ∀ j, j < ISAAC_WORDS → r.getD j 0 = e.getD j 0

/-- The content of an array declared with `rows` rows of `cols` entries and initialised by
the lists `inits`: an entry without an initialiser is zero. -/
def zeroFill (rows cols : Nat) (inits : List (List Nat)) : List (List Nat) :=
  (List.range rows).map fun i => (List.range cols).map fun j => (inits.getD i []).getD j 0

/-- A generator that plays back a given sequence of blocks: its state counts the calls, and
call number `n` of `isaac_refill` leaves `blocks n` in the buffer. -/
def playback (blocks : Nat → List Nat) : Generator Nat :=
  { isaac_seed := fun _ => 0, isaac_refill := fun n _ => (n + 1, blocks n) }

/-- Index of the first word in which two arrays differ. -/
def firstDiff : List Nat → List Nat → Option Nat
  | x :: xs, y :: ys => if x = y then (firstDiff xs ys).map (· + 1) else some 0
  | _, _ => none

/-- A run whose block 0 is wrong in word 0: the second call leaves `expected[0]` with word 0
replaced by zero. -/
def wrongFirst : Nat → List Nat := fun n =>
  if n = 1 then expected32_0.set 0 0 else List.replicate ISAAC_WORDS 0

/-- A run whose block 0 is right and whose block 1 is wrong in word 255: the second call
leaves `expected[0]`, the third `expected[1]` with word 255 replaced by zero. -/
def wrongSecond : Nat → List Nat := fun n =>
  if n = 1 then expected32_0 else if n = 2 then expected32_1.set 255 0
  else List.replicate ISAAC_WORDS 0

/-! ## The repeat loop -/

theorem repeatLoop_zero {σ : Type} (g : Generator σ) (h : Harness σ) : repeatLoop g 0 h = h := by
  rw [repeatLoop]; simp

theorem repeatLoop_pos {σ : Type} (g : Generator σ) (n : Int) (h : Harness σ) (hn : 0 < n) :
    repeatLoop g n h
      = repeatLoop g (n - 1) (callRefill g { s := h.s, r := h.r, log := h.log ++ [Event.body n] }) := by
  rw [repeatLoop]
  have h1 : n ≠ 0 := by omega
  have h2 : 0 ≤ n := by omega
  have h3 : ¬ n < 0 := by omega
  simp only [h1, h2, h3, ne_eq, not_false_eq_true, if_true, if_false]
  rfl

theorem repeatLoop_neg {σ : Type} (g : Generator σ) (n : Int) (h : Harness σ) (hn : n < 0) :
    repeatLoop g n h
      = repeatLoop g (n + 1) { s := h.s, r := h.r, log := h.log ++ [Event.body n] } := by
  rw [repeatLoop]
  have h1 : n ≠ 0 := by omega
  have h2 : ¬ 0 ≤ n := by omega
  simp only [h1, h2, hn, ne_eq, not_false_eq_true, if_true, if_false]

theorem idleEvents_succ (k : Nat) :
    idleEvents (k + 1) = Event.body (-((k : Int) + 1)) :: idleEvents k := by
  unfold idleEvents
  rw [List.range_succ_eq_map, List.map_cons, List.map_map]
  simp only [Nat.cast_zero, add_zero, Nat.cast_add, Nat.cast_one, List.cons.injEq, true_and]
  apply List.map_congr_left
  intro j _
  simp only [Function.comp, Nat.cast_succ, Event.body.injEq]
  omega

theorem repeatLoop_idle {σ : Type} (g : Generator σ) (k : Nat) (h : Harness σ) :
    repeatLoop g (-(k : Int)) h = { s := h.s, r := h.r, log := h.log ++ idleEvents k } := by
  induction k generalizing h with
  | zero => simp [repeatLoop_zero, idleEvents]
  | succ k ih =>
    rw [repeatLoop_neg g _ h (by push_cast; omega)]
    have e : (-((k + 1 : Nat) : Int) + 1) = -(k : Int) := by push_cast; omega
    rw [e, ih, idleEvents_succ]
    simp

theorem refillN_succ_comm {σ : Type} (g : Generator σ) (n : Nat) (p : σ × List Nat) :
    refillN g (n + 1) p = refillN g n (g.isaac_refill p.1 p.2) := by
  induction n with
  | zero => rfl
  | succ n ih => rw [refillN, ih]; rfl

theorem repeatLoop_live {σ : Type} (g : Generator σ) (k : Nat) (h : Harness σ) :
    repeatLoop g (k : Int) h
      = { s := (refillN g k (h.s, h.r)).1, r := (refillN g k (h.s, h.r)).2,
          log := h.log ++ liveEvents k } := by
  induction k generalizing h with
  | zero => simp [repeatLoop_zero, liveEvents, refillN]
  | succ k ih =>
    rw [repeatLoop_pos g _ h (by push_cast; omega)]
    have e : (((k + 1 : Nat) : Int) - 1) = (k : Int) := by push_cast; omega
    rw [e, ih, refillN_succ_comm]
    simp [callRefill, liveEvents]

theorem refillCalls_idle (k : Nat) : refillCalls (idleEvents k) = 0 := by
  simp [refillCalls, idleEvents, List.count_eq_zero]

theorem bodyRuns_idle (k : Nat) : bodyRuns (idleEvents k) = k := by
  simp [bodyRuns, idleEvents, List.countP_map, Function.comp_def, Event.isBody, List.countP_true]

theorem refillCalls_live (k : Nat) : refillCalls (liveEvents k) = k := by
  induction k with
  | zero => rfl
  | succ k ih =>
    have : refillCalls (liveEvents (k + 1)) = refillCalls (liveEvents k) + 1 := by
      simp [refillCalls, liveEvents, List.count_cons]
    omega

theorem bodyRuns_live (k : Nat) : bodyRuns (liveEvents k) = k := by
  induction k with
  | zero => rfl
  | succ k ih =>
    have : bodyRuns (liveEvents (k + 1)) = bodyRuns (liveEvents k) + 1 := by
      simp [bodyRuns, liveEvents, List.countP_cons, Event.isBody]
    omega

/-! ## The comparison `memcmp (r, expected[i], sizeof r) == 0` -/

theorem memcmp_eq_zero_iff (xs ys : List Nat) (hl : xs.length = ys.length) :
    memcmp xs ys xs.length = 0 ↔ xs = ys := by
  induction xs generalizing ys with
  | nil =>
    cases ys with
    | nil => simp [memcmp]
    | cons y ys => simp at hl
  | cons x xs ih =>
    cases ys with
    | nil => simp at hl
    | cons y ys =>
      have hl1 : xs.length = ys.length := by simpa using hl
      simp only [List.length_cons, memcmp, List.cons.injEq]
      by_cases hxy : x = y
      · simp [hxy, ih ys hl1]
      · have : (x : Int) - (y : Int) ≠ 0 := by omega
        simp [hxy, this]

theorem wordBytes_length (fam : Family) (w : Nat) :
    (wordBytes fam w).length = sizeof_isaac_word fam := by
  simp [wordBytes]

theorem wordBytes_inj (fam : Family) (v w : Nat) (hv : v < 2 ^ ISAAC_BITS fam)
    (hw : w < 2 ^ ISAAC_BITS fam) (h : wordBytes fam v = wordBytes fam w) : v = w := by
  cases fam
  · simp only [wordBytes, sizeof_isaac_word, ISAAC_BITS, Nat.reduceDiv, List.range_succ,
      List.range_zero, List.nil_append, List.cons_append, List.map_cons, List.map_nil,
      List.cons.injEq, and_true, Nat.reducePow] at h hv hw
    omega
  · simp only [wordBytes, sizeof_isaac_word, ISAAC_BITS, Nat.reduceDiv, List.range_succ,
      List.range_zero, List.nil_append, List.cons_append, List.map_cons, List.map_nil,
      List.cons.injEq, and_true, Nat.reducePow] at h hv hw
    omega

theorem objectBytes_length (fam : Family) (l : List Nat) :
    (objectBytes fam l).length = l.length * sizeof_isaac_word fam := by
  induction l with
  | nil => simp [objectBytes]
  | cons x xs ih => simp [objectBytes, wordBytes_length, ih, Nat.succ_mul, Nat.add_comm]

theorem objectBytes_inj (fam : Family) (a b : List Nat) (hl : a.length = b.length)
    (ha : ∀ x ∈ a, x < 2 ^ ISAAC_BITS fam) (hb : ∀ x ∈ b, x < 2 ^ ISAAC_BITS fam)
    (h : objectBytes fam a = objectBytes fam b) : a = b := by
  induction a generalizing b with
  | nil =>
    cases b with
    | nil => rfl
    | cons y ys => simp at hl
  | cons x xs ih =>
    cases b with
    | nil => simp at hl
    | cons y ys =>
      simp only [objectBytes] at h
      have hlen : (wordBytes fam x).length = (wordBytes fam y).length := by
        rw [wordBytes_length, wordBytes_length]
      obtain ⟨h1, h2⟩ := List.append_inj h hlen
      have hx := wordBytes_inj fam x y (ha x (by simp)) (hb y (by simp)) h1
      have hxs := ih ys (by simpa using hl) (fun z hz => ha z (by simp [hz]))
        (fun z hz => hb z (by simp [hz])) h2
      rw [hx, hxs]

theorem memcmp_blocks_iff (fam : Family) (r e : List Nat) (hr : IsBlock fam r)
    (he : IsBlock fam e) :
    memcmp (objectBytes fam r) (objectBytes fam e) (sizeof_r fam) = 0 ↔ r = e := by
  have hlen : (objectBytes fam r).length = (objectBytes fam e).length := by
    rw [objectBytes_length, objectBytes_length, hr.1, he.1]
  have hsz : sizeof_r fam = (objectBytes fam r).length := by
    rw [objectBytes_length, hr.1]; rfl
  rw [hsz, memcmp_eq_zero_iff _ _ hlen]
  constructor
  · intro h
    exact objectBytes_inj fam r e (by rw [hr.1, he.1]) hr.2 he.2 h
  · intro h
    rw [h]

theorem expected_length (fam : Family) : (expected fam).length = 2 := by
  cases fam <;> rfl

theorem expected_isBlock (fam : Family) (i : Nat) (hi : i < 2) :
    IsBlock fam ((expected fam).getD i []) := by
  have h32 : ∀ e ∈ expected Family.isaac32,
      e.length = 256 ∧ ∀ x ∈ e, x < 2 ^ 32 := by decide!
  have h64 : ∀ e ∈ expected Family.isaac64,
      e.length = 256 ∧ ∀ x ∈ e, x < 2 ^ 64 := by decide!
  have hmem : (expected fam).getD i [] ∈ expected fam := by
    rw [List.getD_eq_getElem _ _ (by rw [expected_length]; exact hi)]
    exact List.getElem_mem _
  cases fam
  · exact h32 _ hmem
  · exact h64 _ hmem

theorem blockMatches_iff (fam : Family) (r : List Nat) (i : Nat) (hi : i < 2)
    (hr : IsBlock fam r) : blockMatches fam r i = true ↔ r = (expected fam).getD i [] := by
  unfold blockMatches
  rw [beq_iff_eq]
  exact memcmp_blocks_iff fam r _ hr (expected_isBlock fam i hi)

/-! ## The control flow of `main` -/

theorem checkLoop_done {σ : Type} (fam : Family) (g : Generator σ) (h : Harness σ) :
    checkLoop fam g 2 h = Checked.passed h := by
  rw [checkLoop]; simp [expected_length]

theorem checkLoop_step {σ : Type} (fam : Family) (g : Generator σ) (i : Nat) (hi : i < 2)
    (h : Harness σ) :
    checkLoop fam g i h =
      if blockMatches fam (g.isaac_refill h.s h.r).2 i then
        checkLoop fam g (i + 1)
          { s := (g.isaac_refill h.s h.r).1, r := (g.isaac_refill h.s h.r).2,
            log := h.log ++ [Event.refill, Event.compare i (g.isaac_refill h.s h.r).2] }
      else
        Checked.failed
          { s := (g.isaac_refill h.s h.r).1, r := (g.isaac_refill h.s h.r).2,
            log := h.log ++ [Event.refill, Event.compare i (g.isaac_refill h.s h.r).2] }
          (Exit.aborted 579) := by
  rw [checkLoop]
  simp only [expected_length, hi, if_true, callRefill, ASSERT, List.append_assoc,
    List.singleton_append]
  by_cases hb : blockMatches fam (g.isaac_refill h.s h.r).2 i = true
  · simp [hb]
  · simp [hb]

theorem main_mismatch_first {σ : Type} (fam : Family) (g : Generator σ) (s0 : σ) (r0 : List Nat)
    (argc parsed : Int) (h0 : blockMatches fam (afterRefills g s0 r0 2).2 0 = false) :
    main fam g s0 r0 argc parsed =
      { h := { s := (afterRefills g s0 r0 2).1, r := (afterRefills g s0 r0 2).2,
               log := firstCheck g s0 r0 },
        exit := Exit.aborted 579 } := by
  simp only [afterRefills, refillN] at h0
  simp [main, checkLoop_step, callRefill, callSeed, afterRefills, refillN, firstCheck, h0]

theorem main_mismatch_second {σ : Type} (fam : Family) (g : Generator σ) (s0 : σ) (r0 : List Nat)
    (argc parsed : Int) (h0 : blockMatches fam (afterRefills g s0 r0 2).2 0 = true)
    (h1 : blockMatches fam (afterRefills g s0 r0 3).2 1 = false) :
    main fam g s0 r0 argc parsed =
      { h := { s := (afterRefills g s0 r0 3).1, r := (afterRefills g s0 r0 3).2,
               log := firstCheck g s0 r0 ++ secondCheck g s0 r0 },
        exit := Exit.aborted 579 } := by
  simp only [afterRefills, refillN] at h0 h1
  simp [main, checkLoop_step, callRefill, callSeed, afterRefills, refillN, firstCheck,
    secondCheck, h0, h1]

theorem main_match {σ : Type} (fam : Family) (g : Generator σ) (s0 : σ) (r0 : List Nat)
    (argc parsed : Int) (h0 : blockMatches fam (afterRefills g s0 r0 2).2 0 = true)
    (h1 : blockMatches fam (afterRefills g s0 r0 3).2 1 = true) :
    main fam g s0 r0 argc parsed =
      { h := repeatLoop g (startIterations argc parsed)
               { s := (afterRefills g s0 r0 3).1, r := (afterRefills g s0 r0 3).2,
                 log := firstCheck g s0 r0 ++ secondCheck g s0 r0 },
        exit := Exit.returned 0 } := by
  simp only [afterRefills, refillN] at h0 h1
  simp [main, checkLoop_step, checkLoop_done, callRefill, callSeed, afterRefills, refillN,
    firstCheck, secondCheck, h0, h1]

/-! ## The packed representation -/

theorem wordBase_pos (fam : Family) : 0 < wordBase fam := by
  unfold wordBase; exact Nat.pow_pos (by decide)

theorem just_lt (fam : Family) (a : Nat) : just fam a < wordBase fam :=
  Nat.mod_lt _ (wordBase_pos fam)

theorem force_eq {α : Type} (n : Nat) (k : Nat → α) : force n k = k n := by
  unfold force
  rfl

theorem getP_pack (fam : Family) (l : List Nat) (hl : ∀ x ∈ l, x < wordBase fam) (i : Nat) :
    getP fam (pack fam l) i = l.getD i 0 := by
  induction l generalizing i with
  | nil => simp [getP, pack]
  | cons x xs ih =>
    have hx : x < wordBase fam := hl x (by simp)
    have hxs : ∀ y ∈ xs, y < wordBase fam := fun y hy => hl y (by simp [hy])
    cases i with
    | zero =>
      simp only [getP, pack, pow_zero, Nat.div_one, List.getD_cons_zero]
      rw [Nat.add_mul_mod_self_left, Nat.mod_eq_of_lt hx]
    | succ i =>
      have h := ih hxs i
      simp only [getP, pack, List.getD_cons_succ] at h ⊢
      rw [← h, pow_succ, Nat.mul_comm (wordBase fam ^ i), ← Nat.div_div_eq_div_mul,
        Nat.add_mul_div_left _ _ (wordBase_pos fam), Nat.div_eq_of_lt hx, Nat.zero_add]

theorem pack_set (fam : Family) (l : List Nat) (i y : Nat) (hi : i < l.length) :
    pack fam (l.set i y) + l.getD i 0 * wordBase fam ^ i
      = pack fam l + y * wordBase fam ^ i := by
  induction l generalizing i with
  | nil => simp at hi
  | cons x xs ih =>
    cases i with
    | zero => simp only [List.set_cons_zero, pack, List.getD_cons_zero, pow_zero]; omega
    | succ i =>
      have h := ih i (by simpa using hi)
      simp only [List.set_cons_succ, pack, List.getD_cons_succ, pow_succ]
      have e1 : xs.getD i 0 * (wordBase fam ^ i * wordBase fam)
          = wordBase fam * (xs.getD i 0 * wordBase fam ^ i) := by ring
      have e2 : y * (wordBase fam ^ i * wordBase fam)
          = wordBase fam * (y * wordBase fam ^ i) := by ring
      rw [e1, e2, Nat.add_assoc, ← Nat.mul_add, h, Nat.mul_add, Nat.add_assoc]

theorem getD_mul_le_pack (fam : Family) (l : List Nat) (i : Nat) :
    l.getD i 0 * wordBase fam ^ i ≤ pack fam l := by
  induction l generalizing i with
  | nil => simp
  | cons x xs ih =>
    cases i with
    | zero => simp [pack]
    | succ i =>
      have h := ih i
      simp only [List.getD_cons_succ, pack, pow_succ]
      calc xs.getD i 0 * (wordBase fam ^ i * wordBase fam)
          = wordBase fam * (xs.getD i 0 * wordBase fam ^ i) := by ring
        _ ≤ wordBase fam * pack fam xs := Nat.mul_le_mul_left _ h
        _ ≤ x + wordBase fam * pack fam xs := Nat.le_add_left _ _

theorem setP_pack (fam : Family) (l : List Nat) (hl : ∀ x ∈ l, x < wordBase fam) (i y : Nat)
    (hi : i < l.length) : setP fam (pack fam l) i y = pack fam (l.set i y) := by
  unfold setP
  rw [getP_pack fam l hl]
  have h1 := pack_set fam l i y hi
  have h2 := getD_mul_le_pack fam l i
  omega

theorem unpack_pack (fam : Family) (l : List Nat) (hl : ∀ x ∈ l, x < wordBase fam) :
    unpack fam l.length (pack fam l) = l := by
  apply List.ext_getElem
  · simp [unpack]
  · intro n h1 h2
    simp only [unpack, List.getElem_map, List.getElem_range]
    rw [getP_pack fam l hl, List.getD_eq_getElem _ _ h2]

theorem bounded_set (fam : Family) (l : List Nat) (i y : Nat) (hl : ∀ x ∈ l, x < wordBase fam)
    (hy : y < wordBase fam) : ∀ x ∈ l.set i y, x < wordBase fam := by
  intro x hx
  rcases List.mem_or_eq_of_mem_set hx with h | h
  · exact hl x h
  · rw [h]; exact hy

/-! ## The sweep on lists and on the packed representation -/

theorem isBlock_set (fam : Family) (l : List Nat) (i y : Nat) (hl : IsBlock fam l)
    (hy : y < wordBase fam) : IsBlock fam (l.set i y) :=
  ⟨by rw [List.length_set]; exact hl.1, bounded_set fam l i y hl.2 hy⟩

theorem stepP_packSweep (fam : Family) (w : Sweep) (i : Nat) (hw : SweepOK fam w)
    (hi : i < ISAAC_WORDS) :
    stepP fam (packSweep fam w) i = packSweep fam (isaac_step fam w i) := by
  obtain ⟨hm, hr⟩ := hw
  have him : i < w.m.length := by rw [hm.1]; exact hi
  have hir : i < w.r.length := by rw [hr.1]; exact hi
  simp only [stepP, packSweep, isaac_step, ind]
  rw [getP_pack fam w.m hm.2, getP_pack fam w.m hm.2, getP_pack fam w.m hm.2,
    setP_pack fam w.m hm.2 _ _ him, setP_pack fam w.r hr.2 _ _ hir,
    getP_pack fam _ (bounded_set fam w.m _ _ hm.2 (just_lt fam _))]

theorem isaac_step_ok (fam : Family) (w : Sweep) (i : Nat) (hw : SweepOK fam w) :
    SweepOK fam (isaac_step fam w i) :=
  ⟨isBlock_set fam w.m _ _ hw.1 (just_lt fam _), isBlock_set fam w.r _ _ hw.2 (just_lt fam _)⟩

theorem foldl_stepP_packSweep (fam : Family) (is : List Nat) (w : Sweep) (hw : SweepOK fam w)
    (his : ∀ i ∈ is, i < ISAAC_WORDS) :
    is.foldl (stepP fam) (packSweep fam w) = packSweep fam (is.foldl (isaac_step fam) w)
      ∧ SweepOK fam (is.foldl (isaac_step fam) w) := by
  induction is generalizing w with
  | nil => exact ⟨rfl, hw⟩
  | cons i is ih =>
    simp only [List.foldl_cons]
    rw [stepP_packSweep fam w i hw (his i (by simp))]
    exact ih _ (isaac_step_ok fam w i hw) (fun j hj => his j (by simp [hj]))

theorem sweepP_eq {α : Type} (fam : Family) (is : List Nat) (w : PSweep) (k : PSweep → α) :
    sweepP fam is w k = k (is.foldl (stepP fam) w) := by
  induction is generalizing w with
  | nil => rfl
  | cons i is ih =>
    simp only [sweepP, force_eq, List.foldl_cons]
    exact ih _

theorem range_lt (n : Nat) : ∀ i ∈ List.range n, i < n := fun _ hi => List.mem_range.mp hi

theorem refillP_eq {α : Type} (fam : Family) (s : isaac_state) (r : List Nat)
    (hm : IsBlock fam s.m) (hr : IsBlock fam r) (k : Nat → Nat → Nat → Nat → Nat → α) :
    refillP fam (pack fam s.m) s.a s.b s.c (pack fam r) k
      = k (pack fam (isaac_refill fam s r).1.m) (isaac_refill fam s r).1.a
          (isaac_refill fam s r).1.b (isaac_refill fam s r).1.c (pack fam (isaac_refill fam s r).2) := by
  have h := foldl_stepP_packSweep fam (List.range ISAAC_WORDS)
    { m := s.m, a := s.a, b := just fam (s.b + just fam (s.c + 1)), r := r } ⟨hm, hr⟩
    (range_lt _)
  simp only [refillP, force_eq, sweepP_eq, isaac_refill]
  simp only [packSweep] at h
  rw [h.1]

theorem isaac_refill_ok (fam : Family) (s : isaac_state) (r : List Nat)
    (hm : IsBlock fam s.m) (hr : IsBlock fam r) :
    IsBlock fam (isaac_refill fam s r).1.m ∧ IsBlock fam (isaac_refill fam s r).2 := by
  have h := foldl_stepP_packSweep fam (List.range ISAAC_WORDS)
    { m := s.m, a := s.a, b := just fam (s.b + just fam (s.c + 1)), r := r } ⟨hm, hr⟩
    (range_lt _)
  simp only [isaac_refill]
  exact h.2

/-! ## Seed on lists and on the packed representation -/

theorem mix_lt (fam : Family) (g : Regs) :
    (mix fam g).a < wordBase fam ∧ (mix fam g).b < wordBase fam ∧ (mix fam g).c < wordBase fam
      ∧ (mix fam g).d < wordBase fam ∧ (mix fam g).e < wordBase fam
      ∧ (mix fam g).f < wordBase fam ∧ (mix fam g).g < wordBase fam
      ∧ (mix fam g).h < wordBase fam := by
  cases fam <;> cases g <;> simp only [mix] <;>
    exact ⟨just_lt _ _, just_lt _ _, just_lt _ _, just_lt _ _, just_lt _ _, just_lt _ _,
      just_lt _ _, just_lt _ _⟩

theorem mix_passP_pack (fam : Family) (g : Regs) (m : List Nat) (k : Nat) (hm : IsBlock fam m)
    (hk : k < ISAAC_WORDS / 8) :
    mix_passP fam (g, pack fam m) k
        = ((isaac_mix_pass fam (g, m) k).1, pack fam (isaac_mix_pass fam (g, m) k).2)
      ∧ IsBlock fam (isaac_mix_pass fam (g, m) k).2 := by
  have hk8 : 8 * k + 7 < m.length := by
    rw [hm.1]; simp only [ISAAC_WORDS, ISAAC_WORDS_LOG] at hk ⊢; omega
  simp only [mix_passP, isaac_mix_pass, getP_pack fam m hm.2]
  generalize hx : mix fam _ = q
  obtain ⟨ha, hb, hc, hd, he, hf, hg, hh⟩ : q.a < wordBase fam ∧ q.b < wordBase fam
      ∧ q.c < wordBase fam ∧ q.d < wordBase fam ∧ q.e < wordBase fam ∧ q.f < wordBase fam
      ∧ q.g < wordBase fam ∧ q.h < wordBase fam := by
    rw [← hx]; exact mix_lt fam _
  have b0 := hm
  have b1 := isBlock_set fam _ (8 * k) q.a b0 ha
  have b2 := isBlock_set fam _ (8 * k + 1) q.b b1 hb
  have b3 := isBlock_set fam _ (8 * k + 2) q.c b2 hc
  have b4 := isBlock_set fam _ (8 * k + 3) q.d b3 hd
  have b5 := isBlock_set fam _ (8 * k + 4) q.e b4 he
  have b6 := isBlock_set fam _ (8 * k + 5) q.f b5 hf
  have b7 := isBlock_set fam _ (8 * k + 6) q.g b6 hg
  have b8 := isBlock_set fam _ (8 * k + 7) q.h b7 hh
  refine ⟨?_, b8⟩
  rw [setP_pack fam _ b0.2 _ _ (by omega), setP_pack fam _ b1.2 _ _ (by rw [b1.1, ← hm.1]; omega),
    setP_pack fam _ b2.2 _ _ (by rw [b2.1, ← hm.1]; omega),
    setP_pack fam _ b3.2 _ _ (by rw [b3.1, ← hm.1]; omega),
    setP_pack fam _ b4.2 _ _ (by rw [b4.1, ← hm.1]; omega),
    setP_pack fam _ b5.2 _ _ (by rw [b5.1, ← hm.1]; omega),
    setP_pack fam _ b6.2 _ _ (by rw [b6.1, ← hm.1]; omega),
    setP_pack fam _ b7.2 _ _ (by rw [b7.1, ← hm.1]; omega)]

theorem passP_eq {α : Type} (fam : Family) (is : List Nat) (p : Regs × Nat)
    (k : Regs × Nat → α) : passP fam is p k = k (is.foldl (mix_passP fam) p) := by
  induction is generalizing p with
  | nil => rfl
  | cons i is ih =>
    simp only [passP, force_eq, List.foldl_cons]
    exact ih _

theorem foldl_mix_passP_pack (fam : Family) (is : List Nat) (g : Regs) (m : List Nat)
    (hm : IsBlock fam m) (his : ∀ k ∈ is, k < ISAAC_WORDS / 8) :
    is.foldl (mix_passP fam) (g, pack fam m)
        = ((is.foldl (isaac_mix_pass fam) (g, m)).1, pack fam (is.foldl (isaac_mix_pass fam) (g, m)).2)
      ∧ IsBlock fam (is.foldl (isaac_mix_pass fam) (g, m)).2 := by
  induction is generalizing g m with
  | nil => exact ⟨rfl, hm⟩
  | cons i is ih =>
    obtain ⟨h1, h2⟩ := mix_passP_pack fam g m i hm (his i (by simp))
    simp only [List.foldl_cons]
    rw [h1]
    exact ih _ _ h2 (fun j hj => his j (by simp [hj]))

theorem seedP_eq {α : Type} (fam : Family) (s : isaac_state) (hm : IsBlock fam s.m)
    (k : Nat → α) :
    seedP fam (pack fam s.m) k = k (pack fam (isaac_seed fam s).m)
      ∧ IsBlock fam (isaac_seed fam s).m := by
  simp only [seedP, passP_eq, isaac_seed]
  generalize mix fam (mix fam (mix fam (mix fam _))) = g
  obtain ⟨h1, h2⟩ := foldl_mix_passP_pack fam (List.range (ISAAC_WORDS / 8)) g s.m hm (range_lt _)
  rw [h1]
  obtain ⟨h3, h4⟩ := foldl_mix_passP_pack fam (List.range (ISAAC_WORDS / 8)) _ _ h2 (range_lt _)
  rw [Prod.mk.eta] at h3 h4
  rw [h3]
  exact ⟨by dsimp only, h4⟩

theorem pack_replicate_zero (fam : Family) (n : Nat) : pack fam (List.replicate n 0) = 0 := by
  induction n with
  | zero => rfl
  | succ n ih => simp [List.replicate_succ, pack, ih]

theorem zeros_isBlock (fam : Family) : IsBlock fam (List.replicate ISAAC_WORDS 0) := by
  refine ⟨List.length_replicate _ _, ?_⟩
  intro x hx
  rw [List.eq_of_mem_replicate hx]
  exact wordBase_pos fam

theorem blocksP_eq (fam : Family) :
    blocksP fam
      = ((afterRefills (isaacGen fam) zero_state (List.replicate ISAAC_WORDS 0) 2).2,
         (afterRefills (isaacGen fam) zero_state (List.replicate ISAAC_WORDS 0) 3).2) := by
  have hz : IsBlock fam zero_state.m := zeros_isBlock fam
  have hzr := zeros_isBlock fam
  have hs := (seedP_eq (α := List Nat × List Nat) fam zero_state hz)
  have hp0 : pack fam zero_state.m = 0 := pack_replicate_zero fam _
  have hr0 : pack fam (List.replicate ISAAC_WORDS 0) = 0 := pack_replicate_zero fam _
  rw [hp0] at hs
  have hm0 := (hs (fun _ => ([], []))).2
  have h1 := isaac_refill_ok fam (isaac_seed fam zero_state) _ hm0 hzr
  have h2 := isaac_refill_ok fam _ _ h1.1 h1.2
  have h3 := isaac_refill_ok fam _ _ h2.1 h2.2
  have e1 := fun k => refillP_eq (α := List Nat × List Nat) fam (isaac_seed fam zero_state) _ hm0 hzr k
  have e2 := fun k => refillP_eq (α := List Nat × List Nat) fam _ _ h1.1 h1.2 k
  have e3 := fun k => refillP_eq (α := List Nat × List Nat) fam _ _ h2.1 h2.2 k
  rw [hr0] at e1
  have ea : (isaac_seed fam zero_state).a = 0 := rfl
  have eb : (isaac_seed fam zero_state).b = 0 := rfl
  have ec : (isaac_seed fam zero_state).c = 0 := rfl
  rw [ea, eb, ec] at e1
  unfold blocksP
  rw [(hs _).1, e1, e2, e3]
  have u2 := unpack_pack fam _ h2.2.2
  have u3 := unpack_pack fam _ h3.2.2
  rw [h2.2.1] at u2
  rw [h3.2.1] at u3
  rw [u2, u3]
  rfl

/-! ## Refill overwrites the whole buffer -/

theorem isaac_step_agree (fam : Family) (n : Nat) (w1 w2 : Sweep)
    (h : w1.m = w2.m ∧ w1.a = w2.a ∧ w1.b = w2.b ∧ w1.r.length = w2.r.length
      ∧ ∀ j, j < n → w1.r[j]? = w2.r[j]?) :
    (isaac_step fam w1 n).m = (isaac_step fam w2 n).m
      ∧ (isaac_step fam w1 n).a = (isaac_step fam w2 n).a
      ∧ (isaac_step fam w1 n).b = (isaac_step fam w2 n).b
      ∧ (isaac_step fam w1 n).r.length = (isaac_step fam w2 n).r.length
      ∧ ∀ j, j < n + 1 → (isaac_step fam w1 n).r[j]? = (isaac_step fam w2 n).r[j]? := by
  obtain ⟨hm, ha, hb, hl, hr⟩ := h
  simp only [isaac_step, hm, ha, hb, List.length_set, hl, true_and]
  intro j hj
  rw [List.getElem?_set, List.getElem?_set, hl]
  by_cases hnj : n = j
  · simp [hnj]
  · simp only [hnj, if_false]
    exact hr j (by omega)

theorem foldl_isaac_step_agree (fam : Family) (n : Nat) (w1 w2 : Sweep)
    (h : w1.m = w2.m ∧ w1.a = w2.a ∧ w1.b = w2.b ∧ w1.r.length = w2.r.length) :
    ((List.range n).foldl (isaac_step fam) w1).m = ((List.range n).foldl (isaac_step fam) w2).m
      ∧ ((List.range n).foldl (isaac_step fam) w1).a
          = ((List.range n).foldl (isaac_step fam) w2).a
      ∧ ((List.range n).foldl (isaac_step fam) w1).b
          = ((List.range n).foldl (isaac_step fam) w2).b
      ∧ ((List.range n).foldl (isaac_step fam) w1).r.length
          = ((List.range n).foldl (isaac_step fam) w2).r.length
      ∧ ∀ j, j < n → ((List.range n).foldl (isaac_step fam) w1).r[j]?
          = ((List.range n).foldl (isaac_step fam) w2).r[j]? := by
  induction n with
  | zero =>
    obtain ⟨hm, ha, hb, hl⟩ := h
    exact ⟨hm, ha, hb, hl, fun j hj => absurd hj (Nat.not_lt_zero j)⟩
  | succ n ih =>
    rw [List.range_succ, List.foldl_append, List.foldl_append]
    simp only [List.foldl_cons, List.foldl_nil]
    exact isaac_step_agree fam n _ _ ih

theorem foldl_isaac_step_length (fam : Family) (is : List Nat) (w : Sweep) :
    (is.foldl (isaac_step fam) w).r.length = w.r.length
      ∧ (is.foldl (isaac_step fam) w).m.length = w.m.length := by
  induction is generalizing w with
  | nil => exact ⟨rfl, rfl⟩
  | cons i is ih =>
    simp only [List.foldl_cons]
    rw [(ih _).1, (ih _).2]
    simp [isaac_step]

theorem isaac_refill_state_indep (fam : Family) (s : isaac_state) (r1 r2 : List Nat)
    (hl : r1.length = r2.length) :
    (isaac_refill fam s r1).1 = (isaac_refill fam s r2).1 := by
  obtain ⟨hm, ha, hb, _, _⟩ := foldl_isaac_step_agree fam ISAAC_WORDS
    { m := s.m, a := s.a, b := just fam (s.b + just fam (s.c + 1)), r := r1 }
    { m := s.m, a := s.a, b := just fam (s.b + just fam (s.c + 1)), r := r2 } ⟨rfl, rfl, rfl, hl⟩
  simp only [isaac_refill, hm, ha, hb]

theorem isaac_refill_length (fam : Family) (s : isaac_state) (r : List Nat) :
    (isaac_refill fam s r).2.length = r.length ∧ (isaac_refill fam s r).1.m.length = s.m.length := by
  simp only [isaac_refill]
  exact foldl_isaac_step_length fam _ _

theorem isaac_refill_overwrites (fam : Family) (s : isaac_state) (r1 r2 : List Nat)
    (h1 : r1.length = ISAAC_WORDS) (h2 : r2.length = ISAAC_WORDS) :
    isaac_refill fam s r1 = isaac_refill fam s r2 := by
  have hst := isaac_refill_state_indep fam s r1 r2 (by rw [h1, h2])
  obtain ⟨_, _, _, _, hr⟩ := foldl_isaac_step_agree fam ISAAC_WORDS
    { m := s.m, a := s.a, b := just fam (s.b + just fam (s.c + 1)), r := r1 }
    { m := s.m, a := s.a, b := just fam (s.b + just fam (s.c + 1)), r := r2 }
    ⟨rfl, rfl, rfl, by rw [h1, h2]⟩
  have l1 := (isaac_refill_length fam s r1).1
  have l2 := (isaac_refill_length fam s r2).1
  have hbuf : (isaac_refill fam s r1).2 = (isaac_refill fam s r2).2 := by
    apply List.ext_getElem?
    intro j
    by_cases hj : j < ISAAC_WORDS
    · simp only [isaac_refill]
      exact hr j hj
    · rw [List.getElem?_eq_none (by rw [l1, h1]; omega),
        List.getElem?_eq_none (by rw [l2, h2]; omega)]
  exact Prod.ext hst hbuf

set_option maxRecDepth 100000 in
theorem blocksP_isaac32 : blocksP Family.isaac32 = (expected32_0, expected32_1) := by decide!

set_option maxRecDepth 100000 in
theorem blocksP_isaac64 : blocksP Family.isaac64 = (expected64_0, expected64_1) := by decide!

theorem blocks_from_zero_buffer (fam : Family) :
    (afterRefills (isaacGen fam) zero_state (List.replicate ISAAC_WORDS 0) 2).2
        = (expected fam).getD 0 []
      ∧ (afterRefills (isaacGen fam) zero_state (List.replicate ISAAC_WORDS 0) 3).2
        = (expected fam).getD 1 [] := by
  have h := blocksP_eq fam
  cases fam
  · rw [blocksP_isaac32, Prod.mk.injEq] at h
    simp only [expected, List.getD_cons_zero, List.getD_cons_succ]
    exact ⟨h.1.symm, h.2.symm⟩
  · rw [blocksP_isaac64, Prod.mk.injEq] at h
    simp only [expected, List.getD_cons_zero, List.getD_cons_succ]
    exact ⟨h.1.symm, h.2.symm⟩

theorem afterRefills_buffer_indep (fam : Family) (s : isaac_state) (r1 r2 : List Nat)
    (h1 : r1.length = ISAAC_WORDS) (h2 : r2.length = ISAAC_WORDS) (n : Nat) :
    afterRefills (isaacGen fam) s r1 (n + 1) = afterRefills (isaacGen fam) s r2 (n + 1) := by
  induction n with
  | zero =>
    simp only [afterRefills, refillN, isaacGen]
    exact isaac_refill_overwrites fam _ r1 r2 h1 h2
  | succ n ih =>
    simp only [afterRefills, refillN] at ih ⊢
    rw [ih]

theorem blocks_from_any_buffer (fam : Family) (r0 : List Nat) (hr0 : r0.length = ISAAC_WORDS) :
    (afterRefills (isaacGen fam) zero_state r0 2).2 = (expected fam).getD 0 []
      ∧ (afterRefills (isaacGen fam) zero_state r0 3).2 = (expected fam).getD 1 [] := by
  rw [afterRefills_buffer_indep fam zero_state r0 _ hr0 (List.length_replicate _ _) 1,
    afterRefills_buffer_indep fam zero_state r0 _ hr0 (List.length_replicate _ _) 2]
  exact blocks_from_zero_buffer fam

/-! ## Further facts used by the properties below -/

theorem afterRefills_isBlock {σ : Type} (fam : Family) (g : Generator σ) (s0 : σ)
    (r0 : List Nat) (hg : WellTyped fam g) (hr0 : IsBlock fam r0) (n : Nat) :
    IsBlock fam (afterRefills g s0 r0 n).2 := by
  induction n with
  | zero => exact hr0
  | succ n ih => exact hg _ _ ih

theorem foldl_isaac_step_buffer (fam : Family) (is : List Nat) (w : Sweep)
    (hr : IsBlock fam w.r) : IsBlock fam (is.foldl (isaac_step fam) w).r := by
  induction is generalizing w with
  | nil => exact hr
  | cons i is ih =>
    simp only [List.foldl_cons]
    exact ih _ (isBlock_set fam w.r _ _ hr (just_lt fam _))

theorem isaacGen_wellTyped (fam : Family) : WellTyped fam (isaacGen fam) := by
  intro s r hr
  simp only [isaacGen, isaac_refill]
  exact foldl_isaac_step_buffer fam _ _ hr

theorem repeatLoop_eq {σ : Type} (g : Generator σ) (n : Int) (h : Harness σ) :
    repeatLoop g n h
      = { s := (refillN g n.toNat (h.s, h.r)).1, r := (refillN g n.toNat (h.s, h.r)).2,
          log := h.log ++ loopEvents n } := by
  by_cases hn : 0 ≤ n
  · have e : n = (n.toNat : Int) := (Int.toNat_of_nonneg hn).symm
    rw [loopEvents, if_pos hn]
    conv_lhs => rw [e]
    exact repeatLoop_live g n.toNat h
  · have e : n = -(n.natAbs : Int) := by omega
    have e0 : n.toNat = 0 := by omega
    rw [loopEvents, if_neg hn, e0]
    conv_lhs => rw [e]
    exact repeatLoop_idle g n.natAbs h

theorem refillCalls_append (l1 l2 : List Event) :
    refillCalls (l1 ++ l2) = refillCalls l1 + refillCalls l2 := by
  simp [refillCalls]

theorem bodyRuns_append (l1 l2 : List Event) :
    bodyRuns (l1 ++ l2) = bodyRuns l1 + bodyRuns l2 := by
  simp [bodyRuns]

theorem refillN_length (fam : Family) (s : isaac_state) (r : List Nat) (k : Nat)
    (hs : s.m.length = ISAAC_WORDS) (hr : r.length = ISAAC_WORDS) :
    (refillN (isaacGen fam) k (s, r)).2.length = ISAAC_WORDS
      ∧ (refillN (isaacGen fam) k (s, r)).1.m.length = ISAAC_WORDS := by
  induction k with
  | zero => exact ⟨hr, hs⟩
  | succ k ih =>
    simp only [refillN, isaacGen] at ih ⊢
    rw [(isaac_refill_length fam _ _).1, (isaac_refill_length fam _ _).2]
    exact ih

theorem isaac_seed_table_only (fam : Family) (s1 s2 : isaac_state) (hm : s1.m = s2.m) :
    isaac_seed fam s1 = isaac_seed fam s2 := by
  simp only [isaac_seed, hm]

theorem expected_blocks_differ (fam : Family) :
    (expected fam).getD 0 [] ≠ (expected fam).getD 1 [] := by
  cases fam
  · simp only [expected, List.getD_cons_zero, List.getD_cons_succ]
    decide!
  · simp only [expected, List.getD_cons_zero, List.getD_cons_succ]
    decide!

/-! ## The properties -/

/-- C3: `main` reaches `return 0` exactly when the blocks of the 2nd and 3rd `isaac_refill`
equal `expected[0]` and `expected[1]`; otherwise it aborts on line 579.  The record of the run
ends with the first failed comparison: after a mismatch of block 0 it holds two refills and one
comparison, after a mismatch of block 1 three refills and two comparisons, and the repeat loop
contributes only after both comparisons passed. -/
theorem main_returns_iff_blocks_match {σ : Type} (fam : Family) (g : Generator σ) (s0 : σ)
    (r0 : List Nat) (argc parsed : Int) (hg : WellTyped fam g) (hr0 : IsBlock fam r0) :
    ((main fam g s0 r0 argc parsed).exit = Exit.returned 0 ↔
        (afterRefills g s0 r0 2).2 = (expected fam).getD 0 []
          ∧ (afterRefills g s0 r0 3).2 = (expected fam).getD 1 [])
      ∧ ((main fam g s0 r0 argc parsed).exit = Exit.returned 0
          ∨ (main fam g s0 r0 argc parsed).exit = Exit.aborted 579)
      ∧ (main fam g s0 r0 argc parsed).h.log
          = firstCheck g s0 r0 ++
              (if (afterRefills g s0 r0 2).2 = (expected fam).getD 0 [] then
                secondCheck g s0 r0 ++
                  (if (afterRefills g s0 r0 3).2 = (expected fam).getD 1 [] then
                    loopEvents (startIterations argc parsed)
                  else [])
              else []) := by
  have i2 := blockMatches_iff fam _ 0 (by decide) (afterRefills_isBlock fam g s0 r0 hg hr0 2)
  have i3 := blockMatches_iff fam _ 1 (by decide) (afterRefills_isBlock fam g s0 r0 hg hr0 3)
  by_cases h0 : blockMatches fam (afterRefills g s0 r0 2).2 0 = true
  · by_cases h1 : blockMatches fam (afterRefills g s0 r0 3).2 1 = true
    · rw [main_match fam g s0 r0 argc parsed h0 h1, repeatLoop_eq, if_pos (i2.mp h0),
        if_pos (i3.mp h1)]
      exact ⟨⟨fun _ => ⟨i2.mp h0, i3.mp h1⟩, fun _ => rfl⟩, Or.inl rfl, rfl⟩
    · have h1f : blockMatches fam (afterRefills g s0 r0 3).2 1 = false := by simpa using h1
      have n3 : ¬ (afterRefills g s0 r0 3).2 = (expected fam).getD 1 [] := fun e => h1 (i3.mpr e)
      rw [main_mismatch_second fam g s0 r0 argc parsed h0 h1f, if_pos (i2.mp h0), if_neg n3]
      refine ⟨⟨fun e => ?_, fun e => absurd e.2 n3⟩, Or.inr rfl, ?_⟩
      · exact absurd e (by simp)
      · simp
  · have h0f : blockMatches fam (afterRefills g s0 r0 2).2 0 = false := by simpa using h0
    have n2 : ¬ (afterRefills g s0 r0 2).2 = (expected fam).getD 0 [] := fun e => h0 (i2.mpr e)
    rw [main_mismatch_first fam g s0 r0 argc parsed h0f, if_neg n2]
    refine ⟨⟨fun e => ?_, fun e => absurd e.1 n2⟩, Or.inr rfl, ?_⟩
    · exact absurd e (by simp)
    · simp

/-- C4: the record of every run of `main` starts with `isaac_seed`, one `isaac_refill` whose
block is not compared, a second `isaac_refill`, and the comparison of its block with
`expected[0]`; if that comparison passes, exactly one more `isaac_refill` follows and its block
(the third) is compared with `expected[1]`; only then the repeat loop runs. -/
theorem comparisons_follow_refills {σ : Type} (fam : Family) (g : Generator σ) (s0 : σ)
    (r0 : List Nat) (argc parsed : Int) :
    (main fam g s0 r0 argc parsed).h.log
      = [Event.seed, Event.refill, Event.refill,
          Event.compare 0 (refillN g 2 (g.isaac_seed s0, r0)).2] ++
          (if blockMatches fam (refillN g 2 (g.isaac_seed s0, r0)).2 0 = true then
            [Event.refill, Event.compare 1 (refillN g 3 (g.isaac_seed s0, r0)).2] ++
              (if blockMatches fam (refillN g 3 (g.isaac_seed s0, r0)).2 1 = true then
                loopEvents (startIterations argc parsed)
              else [])
          else []) := by
  by_cases h0 : blockMatches fam (afterRefills g s0 r0 2).2 0 = true
  · by_cases h1 : blockMatches fam (afterRefills g s0 r0 3).2 1 = true
    · rw [main_match fam g s0 r0 argc parsed h0 h1, repeatLoop_eq]
      simp only [afterRefills] at h0 h1
      simp [h0, h1, firstCheck, secondCheck, afterRefills]
    · have h1f : blockMatches fam (afterRefills g s0 r0 3).2 1 = false := by simpa using h1
      rw [main_mismatch_second fam g s0 r0 argc parsed h0 h1f]
      simp only [afterRefills] at h0 h1f
      simp [h0, h1f, firstCheck, secondCheck, afterRefills]
  · have h0f : blockMatches fam (afterRefills g s0 r0 2).2 0 = false := by simpa using h0
    rw [main_mismatch_first fam g s0 r0 argc parsed h0f]
    simp only [afterRefills] at h0f
    simp [h0f, firstCheck, afterRefills]

/-- C5: entered with `iterations = -k`, `k > 0`, the repeat loop leaves `s` and `r` as they
were; it executes its body `k` times and none of the executions calls `isaac_refill`. -/
theorem repeat_loop_negative_is_idle {σ : Type} (g : Generator σ) (h : Harness σ) (k : Nat)
    (hk : 0 < k) :
    (repeatLoop g (-(k : Int)) h).s = h.s ∧ (repeatLoop g (-(k : Int)) h).r = h.r
      ∧ (repeatLoop g (-(k : Int)) h).log = h.log ++ idleEvents k
      ∧ Event.refill ∉ idleEvents k
      ∧ refillCalls (repeatLoop g (-(k : Int)) h).log = refillCalls h.log
      ∧ 0 < bodyRuns (idleEvents k) := by
  rw [repeatLoop_idle]
  refine ⟨rfl, rfl, rfl, ?_, ?_, ?_⟩
  · simp [idleEvents]
  · simp [refillCalls_append, refillCalls_idle]
  · rw [bodyRuns_idle]; exact hk

/-- C6: entered with `iterations = k`, `k > 0`, the repeat loop calls `isaac_refill` exactly `k`
times: `s` and `r` afterwards are those of `k` consecutive refills, and the record grows by `k`
executions of the body, each with one `isaac_refill`. -/
theorem repeat_loop_positive_refills {σ : Type} (g : Generator σ) (h : Harness σ) (k : Nat)
    (hk : 0 < k) :
    (repeatLoop g (k : Int) h).s = (refillN g k (h.s, h.r)).1
      ∧ (repeatLoop g (k : Int) h).r = (refillN g k (h.s, h.r)).2
      ∧ (repeatLoop g (k : Int) h).log = h.log ++ liveEvents k
      ∧ refillCalls (repeatLoop g (k : Int) h).log = refillCalls h.log + k
      ∧ refillCalls (repeatLoop g (k : Int) h).log ≠ refillCalls h.log + (k - 1)
      ∧ refillCalls (repeatLoop g (k : Int) h).log ≠ refillCalls h.log + (k + 1) := by
  rw [repeatLoop_live]
  refine ⟨rfl, rfl, rfl, ?_, ?_, ?_⟩ <;> simp only [refillCalls_append, refillCalls_live] <;> omega

/-- C5 at `k = 3`, on the zero state. -/
theorem repeat_loop_negative_is_idle_witness :
    0 < 3 ∧
      (repeatLoop (isaacGen Family.isaac32) (-((3 : Nat) : Int))
          { s := zero_state, r := [], log := [] }).log
        = [] ++ idleEvents 3 :=
  ⟨by decide,
    (repeat_loop_negative_is_idle (isaacGen Family.isaac32)
      { s := zero_state, r := [], log := [] } 3 (by decide)).2.2.1⟩

/-- C6 at `k = 2`, on the zero state. -/
theorem repeat_loop_positive_refills_witness :
    0 < 2 ∧
      refillCalls (repeatLoop (isaacGen Family.isaac32) ((2 : Nat) : Int)
          { s := zero_state, r := [], log := [] }).log
        = refillCalls [] + 2 :=
  ⟨by decide,
    (repeat_loop_positive_refills (isaacGen Family.isaac32)
      { s := zero_state, r := [], log := [] } 2 (by decide)).2.2.2.1⟩

/-- C10, as stated, fails for the argument `-1`: the parsed value is non-positive and the
repeat loop executes its body once. -/
theorem nonpositive_argument_still_iterates :
    (-1 : Int) ≤ 0
      ∧ (repeatLoop (isaacGen Family.isaac32) (startIterations 2 (-1))
            { s := zero_state, r := [], log := [] }).log = [Event.body (-1)]
      ∧ bodyRuns (repeatLoop (isaacGen Family.isaac32) (startIterations 2 (-1))
            { s := zero_state, r := [], log := [] }).log ≠ 0 := by
  have e : startIterations 2 (-1) = -((1 : Nat) : Int) := by decide
  rw [e, repeatLoop_idle]
  refine ⟨by decide, ?_, ?_⟩
  · rfl
  · simp [bodyRuns_idle]

/-- C10, amended: without an argument (`argc <= 1`), or when the parsed value as stored in the
`int iterations` is non-positive, the repeat loop calls `isaac_refill` zero times and leaves
`s` and `r` as they were; it executes its idle body `|iterations|` times. -/
theorem nonpositive_argument_no_refill {σ : Type} (g : Generator σ) (h : Harness σ)
    (argc parsed : Int) (hc : argc ≤ 1 ∨ toInt parsed ≤ 0) :
    (repeatLoop g (startIterations argc parsed) h).s = h.s
      ∧ (repeatLoop g (startIterations argc parsed) h).r = h.r
      ∧ refillCalls (repeatLoop g (startIterations argc parsed) h).log = refillCalls h.log
      ∧ (repeatLoop g (startIterations argc parsed) h).log
          = h.log ++ idleEvents (startIterations argc parsed).natAbs
      ∧ bodyRuns (repeatLoop g (startIterations argc parsed) h).log
          = bodyRuns h.log + (startIterations argc parsed).natAbs
      ∧ (startIterations argc parsed).natAbs = (if argc ≤ 1 then 0 else (toInt parsed).natAbs) := by
  have hn : startIterations argc parsed ≤ 0 := by
    unfold startIterations
    split
    · exact le_refl 0
    · rcases hc with hc | hc
      · omega
      · exact hc
  have e : startIterations argc parsed = -((startIterations argc parsed).natAbs : Int) := by
    omega
  have hlast : (startIterations argc parsed).natAbs
      = (if argc ≤ 1 then 0 else (toInt parsed).natAbs) := by
    unfold startIterations
    split <;> rfl
  refine ⟨?_, ?_, ?_, ?_, ?_, hlast⟩ <;> clear hlast <;> revert e <;>
    generalize startIterations argc parsed = n <;> intro e <;>
    generalize n.natAbs = k at e <;> subst e <;> rw [repeatLoop_idle]
  · simp [refillCalls_append, refillCalls_idle]
  · simp [bodyRuns_append, bodyRuns_idle]

/-- C10, amended, at the argument `-3`. -/
theorem nonpositive_argument_no_refill_witness :
    ((2 : Int) ≤ 1 ∨ toInt (-3) ≤ 0)
      ∧ refillCalls (repeatLoop (isaacGen Family.isaac32) (startIterations 2 (-3))
            { s := zero_state, r := [], log := [] }).log = refillCalls [] :=
  ⟨Or.inr (by decide),
    (nonpositive_argument_no_refill (isaacGen Family.isaac32)
      { s := zero_state, r := [], log := [] } 2 (-3) (Or.inr (by decide))).2.2.1⟩

/-- C3 for the modelled 32-bit generator, started without an argument. -/
theorem main_returns_iff_blocks_match_witness :
    WellTyped Family.isaac32 (isaacGen Family.isaac32)
      ∧ IsBlock Family.isaac32 (List.replicate ISAAC_WORDS 0)
      ∧ ((main Family.isaac32 (isaacGen Family.isaac32) zero_state
              (List.replicate ISAAC_WORDS 0) 1 0).exit = Exit.returned 0 ↔
          (afterRefills (isaacGen Family.isaac32) zero_state (List.replicate ISAAC_WORDS 0) 2).2
              = (expected Family.isaac32).getD 0 []
            ∧ (afterRefills (isaacGen Family.isaac32) zero_state
                (List.replicate ISAAC_WORDS 0) 3).2 = (expected Family.isaac32).getD 1 []) :=
  ⟨isaacGen_wellTyped Family.isaac32, zeros_isBlock Family.isaac32,
    (main_returns_iff_blocks_match Family.isaac32 (isaacGen Family.isaac32) zero_state
      (List.replicate ISAAC_WORDS 0) 1 0 (isaacGen_wellTyped Family.isaac32)
      (zeros_isBlock Family.isaac32)).1⟩

/-- C1: in the 32-bit build, after `isaac_seed` of the zero state and one discarded
`isaac_refill`, the next `isaac_refill` leaves the 256 words of `expected[0]` (first word
`0xf650e4c8`) in the buffer and the one after it the 256 words of `expected[1]` (first word
`0x82ac484f`), whatever the buffer held before. -/
theorem isaac32_reference_blocks (r0 : List Nat) (hr0 : r0.length = ISAAC_WORDS) :
    (afterRefills (isaacGen Family.isaac32) zero_state r0 2).2 = expected32_0
      ∧ (afterRefills (isaacGen Family.isaac32) zero_state r0 3).2 = expected32_1
      ∧ expected Family.isaac32 = [expected32_0, expected32_1]
      ∧ expected32_0.length = 256 ∧ expected32_1.length = 256
      ∧ expected32_0.head? = some 0xf650e4c8 ∧ expected32_1.head? = some 0x82ac484f := by
  have h := blocks_from_any_buffer Family.isaac32 r0 hr0
  simp only [expected, List.getD_cons_zero, List.getD_cons_succ] at h
  exact ⟨h.1, h.2, rfl, by decide!, by decide!, by decide!, by decide!⟩

/-- C1 with a buffer of zeros. -/
theorem isaac32_reference_blocks_witness :
    (List.replicate ISAAC_WORDS 0).length = ISAAC_WORDS
      ∧ (afterRefills (isaacGen Family.isaac32) zero_state (List.replicate ISAAC_WORDS 0) 2).2
          = expected32_0 :=
  ⟨List.length_replicate _ _,
    (isaac32_reference_blocks (List.replicate ISAAC_WORDS 0) (List.length_replicate _ _)).1⟩

/-- C2: in the 64-bit build, after `isaac_seed` of the zero state and one discarded
`isaac_refill`, the next `isaac_refill` leaves the 256 words of `expected[0]` (first word
`0x12a8f216af9418c2`) in the buffer and the one after it the 256 words of `expected[1]` (first
word `0xd20d8c88c8ffe65f`), whatever the buffer held before. -/
theorem isaac64_reference_blocks (r0 : List Nat) (hr0 : r0.length = ISAAC_WORDS) :
    (afterRefills (isaacGen Family.isaac64) zero_state r0 2).2 = expected64_0
      ∧ (afterRefills (isaacGen Family.isaac64) zero_state r0 3).2 = expected64_1
      ∧ expected Family.isaac64 = [expected64_0, expected64_1]
      ∧ expected64_0.length = 256 ∧ expected64_1.length = 256
      ∧ expected64_0.head? = some 0x12a8f216af9418c2
      ∧ expected64_1.head? = some 0xd20d8c88c8ffe65f := by
  have h := blocks_from_any_buffer Family.isaac64 r0 hr0
  simp only [expected, List.getD_cons_zero, List.getD_cons_succ] at h
  exact ⟨h.1, h.2, rfl, by decide!, by decide!, by decide!, by decide!⟩

/-- C2 with a buffer of zeros. -/
theorem isaac64_reference_blocks_witness :
    (List.replicate ISAAC_WORDS 0).length = ISAAC_WORDS
      ∧ (afterRefills (isaacGen Family.isaac64) zero_state (List.replicate ISAAC_WORDS 0) 2).2
          = expected64_0 :=
  ⟨List.length_replicate _ _,
    (isaac64_reference_blocks (List.replicate ISAAC_WORDS 0) (List.length_replicate _ _)).1⟩

/-- C7: two states with the same seed material in the table (whatever their `a`, `b`, `c`) are
equal after Seed, and after any number `n + 1` of Refill calls both the states (table, `a`, `b`,
`c`) and the output blocks are equal, whatever the two output buffers held before. -/
theorem isaac_deterministic (fam : Family) (s1 s2 : isaac_state) (r1 r2 : List Nat) (n : Nat)
    (hm : s1.m = s2.m) (h1 : r1.length = ISAAC_WORDS) (h2 : r2.length = ISAAC_WORDS) :
    isaac_seed fam s1 = isaac_seed fam s2
      ∧ (afterRefills (isaacGen fam) s1 r1 (n + 1)).1 = (afterRefills (isaacGen fam) s2 r2 (n + 1)).1
      ∧ (afterRefills (isaacGen fam) s1 r1 (n + 1)).2
          = (afterRefills (isaacGen fam) s2 r2 (n + 1)).2 := by
  have hs := isaac_seed_table_only fam s1 s2 hm
  have hb := afterRefills_buffer_indep fam s2 r1 r2 h1 h2 n
  have e : afterRefills (isaacGen fam) s1 r1 (n + 1) = afterRefills (isaacGen fam) s2 r1 (n + 1) := by
    simp only [afterRefills, isaacGen] at hs ⊢
    rw [hs]
  rw [e, hb]
  exact ⟨hs, rfl, rfl⟩

/-- C7 for the zero table with different `a`, `b`, `c` and different buffers. -/
theorem isaac_deterministic_witness :
    zero_state.m = ({ m := List.replicate ISAAC_WORDS 0, a := 5, b := 6, c := 7 } : isaac_state).m
      ∧ (List.replicate ISAAC_WORDS 0).length = ISAAC_WORDS
      ∧ (List.replicate ISAAC_WORDS 9).length = ISAAC_WORDS
      ∧ (afterRefills (isaacGen Family.isaac32) zero_state (List.replicate ISAAC_WORDS 0) 3).2
          = (afterRefills (isaacGen Family.isaac32)
              { m := List.replicate ISAAC_WORDS 0, a := 5, b := 6, c := 7 }
              (List.replicate ISAAC_WORDS 9) 3).2 :=
  ⟨rfl, List.length_replicate _ _, List.length_replicate _ _,
    (isaac_deterministic Family.isaac32 zero_state
      { m := List.replicate ISAAC_WORDS 0, a := 5, b := 6, c := 7 }
      (List.replicate ISAAC_WORDS 0) (List.replicate ISAAC_WORDS 9) 2 rfl
      (List.length_replicate _ _) (List.length_replicate _ _)).2.2⟩

/-- C8: in both builds the reference blocks `expected[0]` and `expected[1]` differ, and so do
the blocks of the 2nd and 3rd Refill of the zero-seeded generator that the test compares with
them: Refill is not idempotent there. -/
theorem refill_not_idempotent (fam : Family) (r0 : List Nat) (hr0 : r0.length = ISAAC_WORDS) :
    (expected fam).getD 0 [] ≠ (expected fam).getD 1 []
      ∧ (afterRefills (isaacGen fam) zero_state r0 2).2
          ≠ (afterRefills (isaacGen fam) zero_state r0 3).2 := by
  have h := blocks_from_any_buffer fam r0 hr0
  rw [h.1, h.2]
  exact ⟨expected_blocks_differ fam, expected_blocks_differ fam⟩

/-- C8 with a buffer of zeros, in the 64-bit build. -/
theorem refill_not_idempotent_witness :
    (List.replicate ISAAC_WORDS 0).length = ISAAC_WORDS
      ∧ (afterRefills (isaacGen Family.isaac64) zero_state (List.replicate ISAAC_WORDS 0) 2).2
          ≠ (afterRefills (isaacGen Family.isaac64) zero_state (List.replicate ISAAC_WORDS 0) 3).2 :=
  ⟨List.length_replicate _ _,
    (refill_not_idempotent Family.isaac64 (List.replicate ISAAC_WORDS 0)
      (List.length_replicate _ _)).2⟩

/-- C9: from any state whose table has `ISAAC_WORDS = 256` entries, after any number `k` of
earlier calls, a Refill call leaves exactly 256 words in the buffer and a table of exactly 256
entries; all 256 words are written by the call, so the result is the same for any other buffer
of 256 words. -/
theorem refill_block_shape (fam : Family) (s : isaac_state) (r r2 : List Nat) (k : Nat)
    (hs : s.m.length = ISAAC_WORDS) (hr : r.length = ISAAC_WORDS)
    (hr2 : r2.length = ISAAC_WORDS) :
    ISAAC_WORDS = 256
      ∧ (refillN (isaacGen fam) (k + 1) (s, r)).2.length = 256
      ∧ (refillN (isaacGen fam) (k + 1) (s, r)).1.m.length = 256
      ∧ isaac_refill fam (refillN (isaacGen fam) k (s, r)).1 r2
          = refillN (isaacGen fam) (k + 1) (s, r) := by
  have hw : ISAAC_WORDS = 256 := by decide
  have h := refillN_length fam s r (k + 1) hs hr
  have hk := refillN_length fam s r k hs hr
  rw [hw] at h
  refine ⟨hw, h.1, h.2, ?_⟩
  simp only [refillN, isaacGen]
  exact isaac_refill_overwrites fam _ _ _ hr2 hk.1

/-- C9 for the first call on the zero state. -/
theorem refill_block_shape_witness :
    zero_state.m.length = ISAAC_WORDS
      ∧ (List.replicate ISAAC_WORDS 0).length = ISAAC_WORDS
      ∧ (List.replicate ISAAC_WORDS 1).length = ISAAC_WORDS
      ∧ (refillN (isaacGen Family.isaac32) (0 + 1)
          (zero_state, List.replicate ISAAC_WORDS 0)).2.length = 256 :=
  ⟨List.length_replicate _ _, List.length_replicate _ _, List.length_replicate _ _,
    (refill_block_shape Family.isaac32 zero_state (List.replicate ISAAC_WORDS 0)
      (List.replicate ISAAC_WORDS 1) 0 (List.length_replicate _ _) (List.length_replicate _ _)
      (List.length_replicate _ _)).2.1⟩

/-! ## Facts about the record of the repeat loop -/

theorem bodyValues_append (l1 l2 : List Event) :
    bodyValues (l1 ++ l2) = bodyValues l1 ++ bodyValues l2 := by
  induction l1 with
  | nil => rfl
  | cons e l ih => cases e <;> simp [bodyValues, ih]

theorem bodyValues_live (k : Nat) :
    bodyValues (liveEvents k) = (List.range k).map fun (j : Nat) => (k : Int) - (j : Int) := by
  induction k with
  | zero => rfl
  | succ k ih =>
    rw [liveEvents, bodyValues, bodyValues, ih, List.range_succ_eq_map, List.map_cons,
      List.map_map]
    simp only [Nat.cast_zero, sub_zero, Nat.cast_add, Nat.cast_one, List.cons.injEq, true_and]
    apply List.map_congr_left
    intro j _
    simp only [Function.comp, Nat.cast_succ]
    omega

theorem bodyValues_idle (k : Nat) :
    bodyValues (idleEvents k) = (List.range k).map fun (j : Nat) => -(k : Int) + (j : Int) := by
  induction k with
  | zero => rfl
  | succ k ih =>
    rw [idleEvents_succ, bodyValues, ih, List.range_succ_eq_map, List.map_cons, List.map_map]
    simp only [Nat.cast_zero, add_zero, Nat.cast_add, Nat.cast_one, List.cons.injEq, true_and]
    apply List.map_congr_left
    intro j _
    simp only [Function.comp, Nat.cast_succ]
    omega

theorem bodyValues_loopEvents (n : Int) :
    bodyValues (loopEvents n)
      = (List.range n.natAbs).map fun (j : Nat) => if 0 ≤ n then n - (j : Int) else n + (j : Int) := by
  unfold loopEvents
  by_cases hn : 0 ≤ n
  · rw [if_pos hn, bodyValues_live]
    have e : n.toNat = n.natAbs := by omega
    rw [e]
    apply List.map_congr_left
    intro j _
    rw [if_pos hn]
    omega
  · rw [if_neg hn, bodyValues_idle]
    apply List.map_congr_left
    intro j _
    rw [if_neg hn]
    omega

theorem mem_bodyValues_loopEvents (n v : Int) (hv : v ∈ bodyValues (loopEvents n)) :
    ∃ j : Nat, j < n.natAbs ∧ v = if 0 ≤ n then n - (j : Int) else n + (j : Int) := by
  rw [bodyValues_loopEvents, List.mem_map] at hv
  obtain ⟨j, hj, e⟩ := hv
  exact ⟨j, List.mem_range.mp hj, e.symm⟩

theorem refillCalls_loopEvents (n : Int) : refillCalls (loopEvents n) = n.toNat := by
  unfold loopEvents
  split
  · exact refillCalls_live _
  · rw [refillCalls_idle]; omega

theorem bodyRuns_loopEvents (n : Int) : bodyRuns (loopEvents n) = n.natAbs := by
  unfold loopEvents
  split
  · rw [bodyRuns_live]; omega
  · exact bodyRuns_idle _

theorem refillN_counter (fam : Family) (s : isaac_state) (r : List Nat) (k : Nat) :
    (refillN (isaacGen fam) k (isaac_seed fam s, r)).1.c = k % 2 ^ ISAAC_BITS fam := by
  induction k with
  | zero => simp [refillN, isaac_seed]
  | succ k ih =>
    have step : (refillN (isaacGen fam) (k + 1) (isaac_seed fam s, r)).1.c
        = ((refillN (isaacGen fam) k (isaac_seed fam s, r)).1.c + 1) % 2 ^ ISAAC_BITS fam := by
      simp only [refillN, isaacGen, isaac_refill, just]
    rw [step, ih]
    exact Nat.mod_add_mod k _ 1

/-- C12: Seed sets `a = b = c = 0`; every Refill call replaces `c` by `c + 1` modulo `2 ^ w`,
`w` the word width; hence after Seed and `k` Refill calls `c = k mod 2 ^ w`. -/
theorem counter_rule (fam : Family) (s : isaac_state) (r : List Nat) (k : Nat) :
    (isaac_seed fam s).a = 0 ∧ (isaac_seed fam s).b = 0 ∧ (isaac_seed fam s).c = 0
      ∧ (isaac_refill fam s r).1.c = (s.c + 1) % 2 ^ ISAAC_BITS fam
      ∧ (afterRefills (isaacGen fam) s r k).1.c = k % 2 ^ ISAAC_BITS fam := by
  refine ⟨rfl, rfl, rfl, ?_, refillN_counter fam s r k⟩
  simp only [isaac_refill, just]

/-- C14: entered with any value `n` of the type `int`, `INT_MIN` and `INT_MAX` included, the
repeat loop ends after exactly `|n|` executions of its body (`2 ^ 31` for `INT_MIN`); at every
execution the value of `iterations` and the value the update
`iterations += (iterations < 0 ? 1 : -1)` gives it lie in the range of `int`. -/
theorem repeat_loop_terminates_in_range {σ : Type} (g : Generator σ) (h : Harness σ) (n : Int)
    (hlo : INT_MIN ≤ n) (hhi : n ≤ INT_MAX) :
    (repeatLoop g n h).log = h.log ++ loopEvents n
      ∧ bodyRuns (repeatLoop g n h).log = bodyRuns h.log + n.natAbs
      ∧ (∀ v ∈ bodyValues (loopEvents n),
          INT_MIN ≤ v ∧ v ≤ INT_MAX
            ∧ INT_MIN ≤ v + (if v < 0 then 1 else -1)
            ∧ v + (if v < 0 then 1 else -1) ≤ INT_MAX)
      ∧ INT_MIN.natAbs = 2 ^ 31 ∧ INT_MAX.natAbs = 2 ^ 31 - 1 := by
  have hlog : (repeatLoop g n h).log = h.log ++ loopEvents n := by rw [repeatLoop_eq]
  refine ⟨hlog, ?_, ?_, by decide, by decide⟩
  · rw [hlog, bodyRuns_append, bodyRuns_loopEvents]
  · intro v hv
    obtain ⟨j, hj, e⟩ := mem_bodyValues_loopEvents n v hv
    simp only [INT_MIN, INT_MAX] at hlo hhi ⊢
    by_cases hn : 0 ≤ n
    · rw [if_pos hn] at e
      have hv0 : ¬ v < 0 := by omega
      rw [if_neg hv0]
      omega
    · rw [if_neg hn] at e
      have hv0 : v < 0 := by omega
      rw [if_pos hv0]
      omega

/-- C14 at `n = INT_MIN`. -/
theorem repeat_loop_terminates_in_range_witness :
    INT_MIN ≤ INT_MIN ∧ INT_MIN ≤ INT_MAX
      ∧ bodyRuns (repeatLoop (isaacGen Family.isaac32) INT_MIN
            { s := zero_state, r := [], log := [] }).log
          = bodyRuns [] + INT_MIN.natAbs :=
  ⟨le_refl _, by decide,
    (repeat_loop_terminates_in_range (isaacGen Family.isaac32)
      { s := zero_state, r := [], log := [] } INT_MIN (le_refl _) (by decide)).2.1⟩

/-- C17: the values of `iterations` at the executions of the body of the repeat loop entered
with `n` are `n, n - 1, ..., 1` for `n >= 0` and `n, n + 1, ..., -1` for `n < 0`: each is nonzero,
has the sign of `n`, and its absolute value is one less at each execution; so inside the body
`0 <= iterations` holds exactly when `0 < iterations` and exactly when `0 < n`, and the loop
calls `isaac_refill` in every execution of its body or in none. -/
theorem repeat_loop_invariant {σ : Type} (g : Generator σ) (h : Harness σ) (n : Int) :
    (repeatLoop g n h).log = h.log ++ loopEvents n
      ∧ bodyValues (loopEvents n)
          = (List.range n.natAbs).map
              (fun (j : Nat) => if 0 ≤ n then n - (j : Int) else n + (j : Int))
      ∧ (∀ j : Nat, j < n.natAbs →
          (if 0 ≤ n then n - (j : Int) else n + (j : Int)).natAbs = n.natAbs - j)
      ∧ (∀ v ∈ bodyValues (loopEvents n),
          v ≠ 0 ∧ v.sign = n.sign ∧ ((0 ≤ v) ↔ (0 < v)) ∧ ((0 ≤ v) ↔ (0 < n)))
      ∧ refillCalls (loopEvents n) = (if 0 < n then bodyRuns (loopEvents n) else 0) := by
  refine ⟨by rw [repeatLoop_eq], bodyValues_loopEvents n, ?_, ?_, ?_⟩
  · intro j hj
    split <;> omega
  · intro v hv
    obtain ⟨j, hj, e⟩ := mem_bodyValues_loopEvents n v hv
    by_cases hn : 0 ≤ n
    · rw [if_pos hn] at e
      have hv0 : 0 < v := by omega
      have hn0 : 0 < n := by omega
      refine ⟨by omega, ?_, by omega, by omega⟩
      rw [Int.sign_eq_one_of_pos hv0, Int.sign_eq_one_of_pos hn0]
    · rw [if_neg hn] at e
      have hv0 : v < 0 := by omega
      have hn0 : n < 0 := by omega
      refine ⟨by omega, ?_, by omega, by omega⟩
      rw [Int.sign_eq_neg_one_of_neg hv0, Int.sign_eq_neg_one_of_neg hn0]
  · rw [refillCalls_loopEvents, bodyRuns_loopEvents]
    split <;> omega

theorem spec_wordsEqual_iff (r e : List Nat) (hr : r.length = ISAAC_WORDS)
    (he : e.length = ISAAC_WORDS) : spec_wordsEqual r e ↔ r = e := by
  constructor
  · intro h
    apply List.ext_getElem (by rw [hr, he])
    intro j h1 h2
    have hj := h j (by rw [← hr]; exact h1)
    rw [List.getD_eq_getElem _ _ h1, List.getD_eq_getElem _ _ h2] at hj
    exact hj
  · intro h j _
    rw [h]

theorem zeroFill_eq (rows cols : Nat) (l : List (List Nat)) (hl : l.length = rows)
    (hc : ∀ e ∈ l, e.length = cols) : zeroFill rows cols l = l := by
  unfold zeroFill
  apply List.ext_getElem (by simp [hl])
  intro i h1 h2
  simp only [List.getElem_map, List.getElem_range]
  rw [List.getD_eq_getElem _ _ h2]
  have hlen : l[i].length = cols := hc _ (List.getElem_mem _)
  apply List.ext_getElem (by simp [hlen])
  intro j h3 h4
  simp only [List.getElem_map, List.getElem_range]
  exact List.getD_eq_getElem _ _ h4

theorem expected_row_length (fam : Family) : ∀ e ∈ expected fam, e.length = ISAAC_WORDS := by
  intro e he
  obtain ⟨i, hi, rfl⟩ := List.getElem_of_mem he
  rw [expected_length] at hi
  have h := (expected_isBlock fam i hi).1
  rw [List.getD_eq_getElem _ _ (by rw [expected_length]; exact hi)] at h
  exact h

/-- C15: for an array `r` of 256 words of the word type, `memcmp (r, expected[i], sizeof r) == 0`
holds exactly when `r[j] == expected[i][j]` for every `j` in `0..255`; `sizeof r` is the number
of bytes of the 256 words of `r` (and of `expected[i]`), in both builds. -/
theorem memcmp_is_word_equality (fam : Family) (r : List Nat) (i : Nat) (hi : i < 2)
    (hr : IsBlock fam r) :
    (blockMatches fam r i = true ↔ spec_wordsEqual r ((expected fam).getD i []))
      ∧ sizeof_r fam = (objectBytes fam r).length
      ∧ sizeof_r fam = (objectBytes fam ((expected fam).getD i [])).length
      ∧ sizeof_r Family.isaac32 = 256 * 4 ∧ sizeof_r Family.isaac64 = 256 * 8 := by
  have he := expected_isBlock fam i hi
  refine ⟨?_, ?_, ?_, by decide, by decide⟩
  · rw [blockMatches_iff fam r i hi hr, spec_wordsEqual_iff r _ hr.1 he.1]
  · rw [objectBytes_length, hr.1]; rfl
  · rw [objectBytes_length, he.1]; rfl

/-- C15 for a buffer of zeros and `expected[0]` of the 32-bit build. -/
theorem memcmp_is_word_equality_witness :
    0 < 2 ∧ IsBlock Family.isaac32 (List.replicate ISAAC_WORDS 0)
      ∧ (blockMatches Family.isaac32 (List.replicate ISAAC_WORDS 0) 0 = true ↔
          spec_wordsEqual (List.replicate ISAAC_WORDS 0) ((expected Family.isaac32).getD 0 [])) :=
  ⟨by decide, zeros_isBlock Family.isaac32,
    (memcmp_is_word_equality Family.isaac32 (List.replicate ISAAC_WORDS 0) 0 (by decide)
      (zeros_isBlock Family.isaac32)).1⟩

/-- C18: in both builds `expected` has exactly 2 blocks of exactly `ISAAC_WORDS = 256`
initialisers each, so the array declared as `expected[2][ISAAC_WORDS]` holds the initialisers
and no zero-filled entry, and the bound `sizeof expected / sizeof expected[0]` of the check
loop is 2. -/
theorem expected_table_shape (fam : Family) :
    (expected fam).length = 2
      ∧ (∀ e ∈ expected fam, e.length = ISAAC_WORDS)
      ∧ ISAAC_WORDS = 256
      ∧ zeroFill 2 ISAAC_WORDS (expected fam) = expected fam
      ∧ ((expected fam).length * sizeof_r fam) / sizeof_r fam = 2 := by
  refine ⟨expected_length fam, expected_row_length fam, by decide,
    zeroFill_eq 2 ISAAC_WORDS _ (expected_length fam) (expected_row_length fam), ?_⟩
  rw [expected_length]
  cases fam <;> decide

/-! ## What a failed comparison reports -/

theorem playback_wrongFirst_wellTyped : WellTyped Family.isaac32 (playback wrongFirst) := by
  intro s r _
  simp only [playback, wrongFirst]
  split
  · have h := expected_isBlock Family.isaac32 0 (by decide)
    simp only [expected, List.getD_cons_zero] at h
    exact isBlock_set Family.isaac32 _ 0 0 h (wordBase_pos _)
  · exact zeros_isBlock Family.isaac32

set_option maxRecDepth 100000 in
theorem wrongFirst_mismatch :
    blockMatches Family.isaac32 (afterRefills (playback wrongFirst) 0 [] 2).2 0 = false := by
  decide!

set_option maxRecDepth 100000 in
theorem wrongSecond_mismatch :
    blockMatches Family.isaac32 (afterRefills (playback wrongSecond) 0 [] 2).2 0 = true
      ∧ blockMatches Family.isaac32 (afterRefills (playback wrongSecond) 0 [] 3).2 1 = false := by
  decide!

set_option maxRecDepth 100000 in
theorem wrong_positions :
    firstDiff (afterRefills (playback wrongFirst) 0 [] 2).2 ((expected Family.isaac32).getD 0 [])
        = some 0
      ∧ firstDiff (afterRefills (playback wrongSecond) 0 [] 2).2
          ((expected Family.isaac32).getD 0 []) = none
      ∧ firstDiff (afterRefills (playback wrongSecond) 0 [] 3).2
          ((expected Family.isaac32).getD 1 []) = some 255 := by
  decide!

set_option maxRecDepth 100000 in
theorem wrongFirst_differs :
    ¬ ((afterRefills (playback wrongFirst) 0 (List.replicate ISAAC_WORDS 0) 2).2
          = (expected Family.isaac32).getD 0 []
        ∧ (afterRefills (playback wrongFirst) 0 (List.replicate ISAAC_WORDS 0) 3).2
          = (expected Family.isaac32).getD 1 []) := by
  decide!

/-- C11, as stated, fails: a run whose block 0 is wrong in word 0 and a run whose block 1 is
wrong in word 255 both end by the abort of the assertion on line 579 and nothing else; no
reading of how the run ended gives back the block index and the word index. -/
theorem abort_report_has_no_indices :
    firstDiff (afterRefills (playback wrongFirst) 0 [] 2).2 ((expected Family.isaac32).getD 0 [])
        = some 0
      ∧ firstDiff (afterRefills (playback wrongSecond) 0 [] 2).2
          ((expected Family.isaac32).getD 0 []) = none
      ∧ firstDiff (afterRefills (playback wrongSecond) 0 [] 3).2
          ((expected Family.isaac32).getD 1 []) = some 255
      ∧ (main Family.isaac32 (playback wrongFirst) 0 [] 1 0).exit = Exit.aborted 579
      ∧ (main Family.isaac32 (playback wrongSecond) 0 [] 1 0).exit = Exit.aborted 579
      ∧ ¬ ∃ decode : Exit → Nat × Nat,
          decode (main Family.isaac32 (playback wrongFirst) 0 [] 1 0).exit = (0, 0)
            ∧ decode (main Family.isaac32 (playback wrongSecond) 0 [] 1 0).exit = (1, 255) := by
  have eA : (main Family.isaac32 (playback wrongFirst) 0 [] 1 0).exit = Exit.aborted 579 := by
    rw [main_mismatch_first Family.isaac32 (playback wrongFirst) 0 [] 1 0 wrongFirst_mismatch]
  have eB : (main Family.isaac32 (playback wrongSecond) 0 [] 1 0).exit = Exit.aborted 579 := by
    rw [main_mismatch_second Family.isaac32 (playback wrongSecond) 0 [] 1 0
      wrongSecond_mismatch.1 wrongSecond_mismatch.2]
  refine ⟨wrong_positions.1, wrong_positions.2.1, wrong_positions.2.2, eA, eB, ?_⟩
  rintro ⟨decode, hA, hB⟩
  rw [eA] at hA
  rw [eB, hA] at hB
  exact absurd hB (by decide)

/-- C11, amended: when a produced block differs from its reference block, `main` aborts at
that first mismatch, by the assertion on line 579 whichever block and word differ; the record
ends with the failed comparison (no later block is generated or compared, the repeat loop does
not run) and `r` still holds the block that failed. -/
theorem abort_on_first_mismatch {σ : Type} (fam : Family) (g : Generator σ) (s0 : σ)
    (r0 : List Nat) (argc parsed : Int) (hg : WellTyped fam g) (hr0 : IsBlock fam r0)
    (hmis : ¬ ((afterRefills g s0 r0 2).2 = (expected fam).getD 0 []
      ∧ (afterRefills g s0 r0 3).2 = (expected fam).getD 1 [])) :
    (main fam g s0 r0 argc parsed).exit = Exit.aborted 579
      ∧ (main fam g s0 r0 argc parsed).h.log
          = firstCheck g s0 r0 ++
              (if (afterRefills g s0 r0 2).2 = (expected fam).getD 0 [] then secondCheck g s0 r0
                else [])
      ∧ (main fam g s0 r0 argc parsed).h.r
          = (if (afterRefills g s0 r0 2).2 = (expected fam).getD 0 [] then
              (afterRefills g s0 r0 3).2
            else (afterRefills g s0 r0 2).2) := by
  have i2 := blockMatches_iff fam _ 0 (by decide) (afterRefills_isBlock fam g s0 r0 hg hr0 2)
  have i3 := blockMatches_iff fam _ 1 (by decide) (afterRefills_isBlock fam g s0 r0 hg hr0 3)
  by_cases e2 : (afterRefills g s0 r0 2).2 = (expected fam).getD 0 []
  · have n3 : ¬ (afterRefills g s0 r0 3).2 = (expected fam).getD 1 [] := fun e => hmis ⟨e2, e⟩
    have h1f : blockMatches fam (afterRefills g s0 r0 3).2 1 = false := by
      cases hb : blockMatches fam (afterRefills g s0 r0 3).2 1
      · rfl
      · exact absurd (i3.mp hb) n3
    rw [main_mismatch_second fam g s0 r0 argc parsed (i2.mpr e2) h1f, if_pos e2, if_pos e2]
    exact ⟨rfl, rfl, rfl⟩
  · have h0f : blockMatches fam (afterRefills g s0 r0 2).2 0 = false := by
      cases hb : blockMatches fam (afterRefills g s0 r0 2).2 0
      · rfl
      · exact absurd (i2.mp hb) e2
    rw [main_mismatch_first fam g s0 r0 argc parsed h0f, if_neg e2, if_neg e2]
    exact ⟨rfl, by simp, rfl⟩

/-- C11, amended, for the run whose block 0 is wrong in word 0. -/
theorem abort_on_first_mismatch_witness :
    WellTyped Family.isaac32 (playback wrongFirst)
      ∧ IsBlock Family.isaac32 (List.replicate ISAAC_WORDS 0)
      ∧ ¬ ((afterRefills (playback wrongFirst) 0 (List.replicate ISAAC_WORDS 0) 2).2
            = (expected Family.isaac32).getD 0 []
          ∧ (afterRefills (playback wrongFirst) 0 (List.replicate ISAAC_WORDS 0) 3).2
            = (expected Family.isaac32).getD 1 [])
      ∧ (main Family.isaac32 (playback wrongFirst) 0 (List.replicate ISAAC_WORDS 0) 1 0).exit
          = Exit.aborted 579 :=
  ⟨playback_wrongFirst_wellTyped, zeros_isBlock Family.isaac32, wrongFirst_differs,
    (abort_on_first_mismatch Family.isaac32 (playback wrongFirst) 0
      (List.replicate ISAAC_WORDS 0) 1 0 playback_wrongFirst_wellTyped
      (zeros_isBlock Family.isaac32) wrongFirst_differs).1⟩

end TestRandIsaac
